import Mathlib

/-!
Verification of the go-msvc/config configuration subsystem.

This file gives a shallow embedding, in Lean, of the parts of the package
that the checked properties talk about:

* the provider chain (`sources.getValue` / `sources.Get` of the source chain
  file), including the zero-value filter, the JSON coercion step and the
  `IValidator` hook;
* the flag-based loader (`MustConfigure` / `MustConstruct` /
  `RegisterConstructor` / `Load`), in particular the per-reference capability
  resolution with its one-key discriminator payload;
* the reference grammar (`validName` / `validReference` regular expressions);
* the live binder (`Add` / `configurable.load` / `Notify` / `Use`) with its
  reference-counted `configValue` revisions and the cleanup loop.

Go runtime values that flow through the chain (`interface{}`) are modelled by
`GoVal`; a Go `nil` interface is `Option.none`.  Effects of external packages
(`encoding/json` round trips, `data.GetInto`, constructor methods invoked by
reflection) are parameters of the model (`ChainEnv`, `FlagEnv`, `CEnv`), since
their code is outside this repository.  Error values built with
`errors.Errorf` / `errors.Wrapf` are modelled as strings or as a structured
error type; `errors.Wrapf` is modelled as always producing an error (the code
relies on this even when the wrapped error is nil, e.g. on the
missing-required-config path of `configurable.load`).
-/

namespace GoConfig

/-- A Go runtime value as it travels through the configuration chain.
`vmap` models a non-nil `map[string]interface{}` (a nil map is modelled as an
absent value, i.e. `Option.none` at the `interface{}` layer); `vstruct`
models a struct value carrying its type name. -/
inductive GoVal where
  | vstr (s : String)
  | vint (n : Int)
  | vbool (b : Bool)
  | vmap (entries : List (String × GoVal))
  | vstruct (tyName : String) (fields : List (String × GoVal))

/-- The dynamic type of a value, as compared by `reflect.TypeOf` in
`sources.Get`. -/
inductive GoType where
  | tstr
  | tint
  | tbool
  | tmap
  | tstruct (name : String)
  deriving DecidableEq, Repr

mutual
/-- `reflect.ValueOf(v).IsZero()` for the values of the model: empty string,
zero integer, false; a (non-nil) map is never zero; a struct is zero iff all
its fields are zero. -/
def GoVal.isZero : GoVal → Bool
  | .vstr s => s = ""
  | .vint n => n = 0
  | .vbool b => b = false
  | .vmap _ => false
  | .vstruct _ fields => isZeroFields fields

def isZeroFields : List (String × GoVal) → Bool
  | [] => true
  | (_, v) :: rest => v.isZero && isZeroFields rest
end

/-- `reflect.TypeOf` of a value. -/
def GoVal.type : GoVal → GoType
  | .vstr _ => .tstr
  | .vint _ => .tint
  | .vbool _ => .tbool
  | .vmap _ => .tmap
  | .vstruct n _ => .tstruct n

/-- `errors.Wrapf(err, msg)`: the wrap keeps the outer message and the cause. -/
def wrapErr (msg inner : String) : String := msg ++ ": " ++ inner

/-! ## The provider chain (`sources` of the source chain file)

An `ISource` has a name and `Get(name, notifier) -> (value, error)`.  The
notifier argument only registers a callback inside the source and has no
effect on the returned value, so it is not part of the model of `Get`. -/

/-- One configured source (`ISource`).  `get` returns `.ok none` when the
source does not define the value, `.ok (some v)` when it does, and `.error`
on source failure. -/
structure GoSource where
  name : String
  get : String → Except String (Option GoVal)

/-- `sources.getValue`: walk the source list in order; the first source that
returns a non-nil value wins; a source error aborts; if no source has the
value, the default is returned. -/
def sourcesGetValue (list : List GoSource) (name : String) (defaultValue : Option GoVal) :
    Except String (Option GoVal) :=
  match list with
  | [] => .ok defaultValue
  | source :: rest =>
    match source.get name with
    | .error e => .error (wrapErr ("source(" ++ source.name ++ ").Get(" ++ name ++ ") failed") e)
    | .ok (some v) => .ok (some v)
    | .ok none => sourcesGetValue rest name defaultValue

/-- The names of the sources whose `Get` is actually invoked by
`sources.getValue`, in invocation order (the loop stops at the first source
that errors or has the value). -/
def consultedSources (list : List GoSource) (name : String) : List String :=
  match list with
  | [] => []
  | source :: rest =>
    match source.get name with
    | .error _ => [source.name]
    | .ok (some _) => [source.name]
    | .ok none => source.name :: consultedSources rest name

/-- Events recorded by the model of `sources.Get`: the JSON round-trip
conversion and the `IValidator.Validate` invocation. -/
inductive GetEv where
  | converted
  | validated
  deriving DecidableEq, Repr

/-- Behaviour of code outside this repository that `sources.Get` calls into:
the `encoding/json` marshal/unmarshal round trip into the default's type, and
the dynamic `IValidator` implementation check plus `Validate()` call. -/
structure ChainEnv where
  convert : GoVal → GoType → Except String GoVal
  implementsValidator : GoType → Bool
  runValidate : GoVal → Except String Unit

/-- `sources.Get(name, defaultValue, notifier)`:
returns `(value, nil)` if found and valid, `(nil, nil)` when not configured
(nil or zero value), `(nil, error)` when a source failed or the value is
invalid.  When a non-nil default is given, the value is JSON-converted to the
default's type if the types differ, and then validated if its type implements
`IValidator`.  The second component records the conversion/validation events
actually performed. -/
def sourcesGet (env : ChainEnv) (list : List GoSource) (name : String)
    (defaultValue : Option GoVal) : Except String (Option GoVal) × List GetEv :=
  match sourcesGetValue list name defaultValue with
  | .error e => (.error (wrapErr ("failed to get(" ++ name ++ ")") e), [])
  | .ok none => (.ok none, [])
  | .ok (some v) =>
    if v.isZero then (.ok none, [])
    else
      match defaultValue with
      | none => (.ok (some v), [])
      | some d =>
        let conv : Except String GoVal × List GetEv :=
          if v.type = d.type then (.ok v, [])
          else
            match env.convert v d.type with
            | .error e => (.error e, [.converted])
            | .ok v2 => (.ok v2, [.converted])
        match conv with
        | (.error e, evs) => (.error e, evs)
        | (.ok v2, evs) =>
          if env.implementsValidator v2.type then
            match env.runValidate v2 with
            | .error e => (.error (wrapErr ("invalid " ++ name) e), evs ++ [.validated])
            | .ok _ => (.ok (some v2), evs ++ [.validated])
          else (.ok (some v2), evs)

/-! ## The flag-based loader (`MustConfigure` / `MustConstruct` / `Load`)

This generation of the package registers required references up front
(`mustConfigureByRef`, `constructorsByType`) and resolves everything in one
`Load()` call.  Its sources implement `GetInto(name, tmpl) -> (value, error)`
(`value` nil when not configured).  Go map iteration order is modelled as
list order. -/

/-- A named source of the flag-based loader (`namedSource` wrapping a
`Source`). -/
structure NamedSource where
  name : String
  getInto : String → GoVal → Except String (Option GoVal)

/-- Per-capability-type registration data (`constructorInfo`): the registered
implementation templates by name, and the references flagged with
`MustConstruct`. -/
structure CInfo where
  tmplByName : List (String × GoVal)
  mustConstructByRef : List String

/-- Reflection-level behaviour outside the model: whether a value's dynamic
type has a `Create` method, the `data.GetInto` coercion used to fix a value
that is not of the template type, and the `Create()` call itself (`.ok none`
models a `nil` constructed instance). -/
structure FlagEnv where
  hasCreateMethod : GoVal → Bool
  dataGetInto : GoVal → GoVal → Except String GoVal
  create : GoVal → Except String (Option GoVal)

/-- The structured errors `Load()` can return, mirroring the `errors.Errorf`
/ `errors.Wrapf` sites.  `unknownImpl` carries the list of registered
implementation names that the error message enumerates
(`"config(%s) has no constructor for %s, only for <names joined by |>"`). -/
inductive FlagErr where
  | noSources
  | sourceFailed (source ref : String) (cause : String)
  | notFound (ref : String)
  | noRegisteredConstructors (ref ty : String)
  | emptyImpl (source ref : String)
  | multiImpl (source ref : String)
  | unknownImpl (ref implName : String) (registeredNames : List String)
  | payloadNotMap (source ref : String)
  | constructorFetchFailed (source ref : String)
  | cannotFix (source ref : String)
  | constructFailed (ref : String) (cause : String)
  | createdNil (ref : String)
  deriving DecidableEq, Repr

/-- Walk the sources in order calling `GetInto(ref, tmpl)`: source error
aborts, the first source with a non-nil value wins (later sources are not
consulted), `none` when no source has the value. -/
def firstSourceValue (srcs : List NamedSource) (ref : String) (tmpl : GoVal) :
    Except FlagErr (Option (NamedSource × GoVal)) :=
  match srcs with
  | [] => .ok none
  | ns :: rest =>
    match ns.getInto ref tmpl with
    | .error e => .error (.sourceFailed ns.name ref e)
    | .ok (some v) => .ok (some (ns, v))
    | .ok none => firstSourceValue rest ref tmpl

/-- First phase of `Load()`: resolve every `MustConfigure` reference from the
sources into `configByRef`.  Entries are accumulated even when a later
reference fails (the Go code fills the `configByRef` map in place). -/
def resolveConfigured (srcs : List NamedSource) :
    List (String × GoVal) → Except FlagErr Unit × List (String × GoVal)
  | [] => (.ok (), [])
  | (ref, requiredTmpl) :: rest =>
    match firstSourceValue srcs ref requiredTmpl with
    | .error e => (.error e, [])
    | .ok none => (.error (.notFound ref), [])
    | .ok (some (_, v)) =>
      let (r, tail) := resolveConfigured srcs rest
      (r, (ref, v) :: tail)

/-- Association-list lookup (a Go map index). -/
def lookupKey (key : String) : List (String × α) → Option α
  | [] => none
  | (k, v) :: rest => if k = key then some v else lookupKey key rest

/-- Resolution of one `MustConstruct` reference (the body of the inner loop
of `Load()`): require at least one registered constructor, fetch the payload
map from the sources, require exactly one discriminator key, look up the
named implementation template, fetch the implementation's own config at
`ref.<implName>` from the same source, and make sure the fetched value has a
`Create` method (fixing it through `data.GetInto` otherwise).  Returns the
configured constructor value to be stored in `constructorByRef`; no
construction happens here. -/
def loadConstructRef (env : FlagEnv) (srcs : List NamedSource) (ty : String) (info : CInfo)
    (ref : String) : Except FlagErr GoVal :=
  if info.tmplByName.isEmpty then .error (.noRegisteredConstructors ref ty)
  else
    match firstSourceValue srcs ref (.vmap []) with
    | .error e => .error e
    | .ok none => .error (.notFound ref)
    | .ok (some (ns, value)) =>
      match value with
      | .vmap [] => .error (.emptyImpl ns.name ref)
      | .vmap [(implName, _)] =>
        match lookupKey implName info.tmplByName with
        | none => .error (.unknownImpl ref implName (info.tmplByName.map Prod.fst))
        | some constructorTmpl =>
          let constructorRef := ref ++ "." ++ implName
          match ns.getInto constructorRef constructorTmpl with
          | .error _ => .error (.constructorFetchFailed ns.name constructorRef)
          | .ok none => .error (.constructorFetchFailed ns.name constructorRef)
          | .ok (some constructorValue) =>
            if env.hasCreateMethod constructorValue then .ok constructorValue
            else
              match env.dataGetInto constructorValue constructorTmpl with
              | .ok converted => .ok converted
              | .error _ => .error (.cannotFix ns.name constructorRef)
      | .vmap (_ :: _ :: _) => .error (.multiImpl ns.name ref)
      | _ => .error (.payloadNotMap ns.name ref)

/-- Second phase of `Load()`: resolve every reference of every registered
capability type, collecting `constructorByRef`. -/
def resolveConstructRefs (env : FlagEnv) (srcs : List NamedSource) (ty : String) (info : CInfo) :
    List String → Except FlagErr (List (String × GoVal))
  | [] => .ok []
  | ref :: rest =>
    match loadConstructRef env srcs ty info ref with
    | .error e => .error e
    | .ok v =>
      match resolveConstructRefs env srcs ty info rest with
      | .error e => .error e
      | .ok tail => .ok ((ref, v) :: tail)

def resolveConstructors (env : FlagEnv) (srcs : List NamedSource) :
    List (String × CInfo) → Except FlagErr (List (String × GoVal))
  | [] => .ok []
  | (ty, info) :: rest =>
    match resolveConstructRefs env srcs ty info info.mustConstructByRef with
    | .error e => .error e
    | .ok vs =>
      match resolveConstructors env srcs rest with
      | .error e => .error e
      | .ok tail => .ok (vs ++ tail)

/-- Third phase of `Load()`: call `Create()` on every configured constructor
value.  The second component records the references for which a `Create`
call was actually made, in order; entries are stored into `configByRef` as
they succeed. -/
def constructAll (env : FlagEnv) :
    List (String × GoVal) → Except FlagErr Unit × List (String × GoVal) × List String
  | [] => (.ok (), [], [])
  | (ref, configured) :: rest =>
    match env.create configured with
    | .error e => (.error (.constructFailed ref e), [], [ref])
    | .ok none => (.error (.createdNil ref), [], [ref])
    | .ok (some created) =>
      let (r, stored, evs) := constructAll env rest
      (r, (ref, created) :: stored, ref :: evs)

/-- Module-level state of the flag-based loader. -/
structure FlagState where
  sources : List NamedSource
  mustConfigureByRef : List (String × GoVal)
  constructorsByType : List (String × CInfo)
  loaded : Bool
  configByRef : List (String × GoVal)

/-- `Load()`: no-op when already loaded; error when no sources were added;
resolve all `MustConfigure` references, then all `MustConstruct` payloads
(failing on missing/invalid config before any construction code is called),
then run all the constructions.  The last component lists the references for
which `Create()` was invoked. -/
def flagLoad (env : FlagEnv) (st : FlagState) :
    Except FlagErr Unit × FlagState × List String :=
  if st.loaded then (.ok (), st, [])
  else if st.sources.isEmpty then (.error .noSources, st, [])
  else
    match resolveConfigured st.sources st.mustConfigureByRef with
    | (.error e, partialCfg) => (.error e, { st with configByRef := partialCfg }, [])
    | (.ok _, cfg) =>
      match resolveConstructors env st.sources st.constructorsByType with
      | .error e => (.error e, { st with configByRef := cfg }, [])
      | .ok constructorByRef =>
        match constructAll env constructorByRef with
        | (.error e, built, evs) =>
          (.error e, { st with configByRef := cfg ++ built }, evs)
        | (.ok _, built, evs) =>
          (.ok (), { st with configByRef := cfg ++ built, loaded := true }, evs)

/-! ## The live binder (`Add` / `configurable.load` / `Notify` / `Use`)

A `configurable` binds a caller-declared struct type to the provider chain.
Each successful load produces a `configValue` (a Revision): an immutable
struct snapshot, a strictly increasing revision number, a creation timestamp
and a consumer set.  `configValue`s are heap objects held by consumers and by
the binder's current pointer; the heap is modelled as a list of
`ConfigValue`s indexed by position, and the binder's `currentValue` pointer
as an index into it. -/

/-- One field of a config struct type together with the corresponding field
of the default struct value.  `ctorArgZero` is
`reflect.New(createMethod.Type.In(1)).Elem().Interface()`, the zero value of
the `Create` argument type (only meaningful when `hasCtor`).  `default` is
`defaultStructValue.Field(i).Interface()`; for an optional (pointer) field
with a nil default it is a value with `isZero = true`. -/
structure Field where
  name : String
  tag : String
  typeName : String
  isPtr : Bool
  hasCtor : Bool
  ctorArgZero : GoVal
  default : GoVal

/-- A struct snapshot: one slot per field, `none` for a nil pointer /
never-assigned optional slot. -/
abbrev StructVal := List (Option GoVal)

/-- A Revision (`configValue`): struct snapshot, revision number, creation
timestamp and the consumer identity set (`users`, a Go `map[string]bool`
modelled as a duplicate-free list). -/
structure ConfigValue where
  structVal : StructVal
  revision : Nat
  ts : Nat
  users : List String

/-- The heap of live `configValue`s; a consumer handle or the binder's
current pointer is an index into it. -/
abbrev CVHeap := List ConfigValue

/-- A binder (`configurable`): the struct shape (with defaults), whether any
field has a constructor, and the current-Revision pointer (`none` before the
first successful load).  `currentValue` and `currentReleaseFunc` are set and
cleared together in the Go code, so one index models both. -/
structure Configurable where
  fields : List Field
  hasConstructedValues : Bool
  validate : Option (StructVal → Except String Unit)
  currentId : Option Nat

/-- External behaviour used by `configurable.load`: the provider chain and
coercion/validation environment (through `GetAndWatch` = `sources.Get`), and
the reflective `Create` constructor call of a field type
(`fieldTypeName → argument → instance`). -/
structure CEnv where
  chain : List GoSource
  conv : ChainEnv
  construct : String → GoVal → Except String GoVal

/-- Load events: a `GetAndWatch` resolution for a tag, and a `Create`
constructor invocation for a tag. -/
inductive LEv where
  | resolve (tag : String)
  | construct (tag : String)
  deriving DecidableEq, Repr

/-- The caller identity `logger.GetCaller(0)` inside `newConfigValue`: the
creator consumer registered on every fresh revision. -/
def creatorID : String := "newConfigValue"

/-- `map[string]bool` insert (`cv.users[callerID] = true`). -/
def addUser (u : String) (us : List String) : List String :=
  if u ∈ us then us else us ++ [u]

/-- Replace the element at index `i`. -/
def modifyAt (i : Nat) (f : α → α) : List α → List α
  | [] => []
  | x :: rest =>
    match i with
    | 0 => f x :: rest
    | i' + 1 => x :: modifyAt i' f rest

/-- Loading of one field of the new struct (one iteration of the field loop
of `configurable.load`).  `oldVal = some ov` means the binder has a current
value whose field `i` is `ov` (`c.currentValue != nil`); the keep branch
copies it when a filter is active and the tag is not in it.  A plain field is
resolved through `GetAndWatch` with the default struct's field as default; a
constructor field is resolved with the zero value of the `Create` argument
type and, when configured, the constructor is invoked. -/
def loadFieldFresh (env : CEnv) (structName : String) (f : Field) :
    Except String (Option GoVal) × List LEv :=
  if !f.hasCtor then
    match (sourcesGet env.conv env.chain f.tag (some f.default)).1 with
    | .error e =>
      (.error (wrapErr (structName ++ "." ++ f.name ++ ": cannot get config " ++ f.tag) e),
       [.resolve f.tag])
    | .ok configuredFieldValue =>
      if !f.isPtr && configuredFieldValue.isNone then
        (.error (structName ++ "." ++ f.name ++ ": missing config " ++ f.tag),
         [.resolve f.tag])
      else (.ok configuredFieldValue, [.resolve f.tag])
  else
    match (sourcesGet env.conv env.chain f.tag (some f.ctorArgZero)).1 with
    | .error e => (.error (wrapErr ("config error on " ++ f.tag) e), [.resolve f.tag])
    | .ok none =>
      if !f.isPtr then (.error ("config required for " ++ f.tag), [.resolve f.tag])
      else (.ok none, [.resolve f.tag])
    | .ok (some configuredValue) =>
      match env.construct f.typeName configuredValue with
      | .error e =>
        (.error (wrapErr (structName ++ "." ++ f.name ++ ": " ++ f.typeName ++ ".Create() failed") e),
         [.resolve f.tag, .construct f.tag])
      | .ok instanceVal => (.ok (some instanceVal), [.resolve f.tag, .construct f.tag])

/-- Selection between the keep branch (copy the current revision's field when
a name filter is active and the tag does not match) and a fresh
resolution. -/
def loadField (env : CEnv) (structName : String) (onlyNames : List String)
    (oldVal : Option (Option GoVal)) (f : Field) :
    Except String (Option GoVal) × List LEv :=
  match oldVal with
  | some ov =>
    if onlyNames.length > 0 && !(onlyNames.contains f.tag) then
      (.ok ov, [])
    else loadFieldFresh env structName f
  | none => loadFieldFresh env structName f

/-- The field loop of `configurable.load`: build the new struct slot by
slot.  `olds` is the current revision's struct (when there is one), walked in
step with the fields. -/
def loadFields (env : CEnv) (structName : String) (onlyNames : List String)
    (olds : Option StructVal) : List Field → Except String StructVal × List LEv
  | [] => (.ok [], [])
  | f :: fs =>
    let oldHead : Option (Option GoVal) := olds.map (fun l => l.headD none)
    let oldsTail : Option StructVal := olds.map List.tail
    match loadField env structName onlyNames oldHead f with
    | (.error e, evs) => (.error e, evs)
    | (.ok slot, evs) =>
      match loadFields env structName onlyNames oldsTail fs with
      | (.error e, evs2) => (.error e, evs ++ evs2)
      | (.ok slots, evs2) => (.ok (slot :: slots), evs ++ evs2)

/-- The success tail of `load`: compute the revision number, release the
creator consumer of the superseded revision (`c.currentReleaseFunc()` sends
the creator identity on the release channel, whose cleanup loop deletes it),
and install the new `configValue` as current. -/
def installRevision (c : Configurable) (heap : CVHeap) (slots : StructVal) (now : Nat)
    (evs : List LEv) : Except String Unit × Configurable × CVHeap × List LEv :=
  match c.currentId with
  | some id =>
    let revision := ((heap.get? id).map ConfigValue.revision).getD 0 + 1
    let heap1 := modifyAt id (fun cv => { cv with users := cv.users.erase creatorID }) heap
    let newCV : ConfigValue :=
      { structVal := slots, revision := revision, ts := now, users := [creatorID] }
    (.ok (), { c with currentId := some heap1.length }, heap1 ++ [newCV], evs)
  | none =>
    let newCV : ConfigValue :=
      { structVal := slots, revision := 1, ts := now, users := [creatorID] }
    (.ok (), { c with currentId := some heap.length }, heap ++ [newCV], evs)

/-- The current revision's struct snapshot (`c.currentValue.structPtrValue`),
when the binder has one. -/
def oldsOf (c : Configurable) (heap : CVHeap) : Option StructVal :=
  c.currentId.bind (fun id => (heap.get? id).map ConfigValue.structVal)

/-- `configurable.load(onlyNames)`, state-passing: returns the load result,
the binder and heap after the call, and the resolution/construction events.
On success the previous revision (if any) gets its creator released
(`c.currentReleaseFunc()`) and a new `configValue` with revision
`previous + 1` (else `1`) is installed as current.  On any error the binder
and the heap are returned as they were. -/
def configurableLoad (env : CEnv) (structName : String) (c : Configurable) (heap : CVHeap)
    (onlyNames : List String) (now : Nat) :
    Except String Unit × Configurable × CVHeap × List LEv :=
  match loadFields env structName onlyNames (oldsOf c heap) c.fields with
  | (.error e, evs) => (.error e, c, heap, evs)
  | (.ok slots, evs) =>
    match c.validate with
    | some va =>
      (match va slots with
       | .error e => (.error (wrapErr "invalid config" e), c, heap, evs)
       | .ok _ => installRevision c heap slots now evs)
    | none => installRevision c heap slots now evs

/-- `configurable.Notify(name)`: reload only the named reference; a load
error is logged and discarded, leaving the state unchanged (fail-static). -/
def configurableNotify (env : CEnv) (structName : String) (c : Configurable) (heap : CVHeap)
    (name : String) (now : Nat) : Configurable × CVHeap × List LEv :=
  match configurableLoad env structName c heap [name] now with
  | (.error _, c', heap', evs) => (c', heap', evs)
  | (.ok _, c', heap', evs) => (c', heap', evs)

/-- `configValue.use(caller)`: register the caller identity in the consumer
set and hand out the snapshot; the returned release callback sends the same
identity on the revision's release channel. -/
def configValueUse (cv : ConfigValue) (caller : String) : StructVal × ConfigValue :=
  (cv.structVal, { cv with users := addUser caller cv.users })

/-- One turn of the `configValue.cleanup` loop: a release signal is received
and the identity is deleted from the consumer set (`delete(cv.users, id)`, a
no-op when the identity is not present). -/
def releaseOne (users : List String) (id : String) : List String :=
  users.erase id

/-- The `configValue.cleanup` receive loop, run against a queue of release
signals: while consumers remain, take the next signal and delete that
identity.  Returns the consumer set when the loop stops and the signals left
in the queue: `([], sigs)` means the loop exited and teardown of the
constructed fields runs; `(us, [])` with `us ≠ []` means the loop is still
blocked waiting for further releases. -/
def cleanupLoop (users : List String) (signals : List String) : List String × List String :=
  match users, signals with
  | [], sigs => ([], sigs)
  | us, [] => (us, [])
  | us, s :: rest => cleanupLoop (releaseOne us s) rest

/-! ## `Add` and template validation -/

/-- The raw, reflection-level description of a caller-supplied config struct
type that `validateConfigStructType` inspects: per field, the json tag, the
pointer shape, visibility, and the signatures of the `Create`/`Destroy`
methods when the field type has them.  `ctor`'s components record what the
reflective checks look at: argument count, whether the argument is a
pointer, result count, and whether the results are `(*FieldType, error)`. -/
structure RawCtor where
  numIn : Nat
  argIsPtr : Bool
  numOut : Nat
  returnsPtrAndErr : Bool
  argZero : GoVal

structure RawDtor where
  numIn : Nat
  numOut : Nat

structure RawField where
  name : String
  jsonTag : String
  typeName : String
  isPtr : Bool
  isDoublePtr : Bool
  isPrivate : Bool
  ctor : Option RawCtor
  dtor : Option RawDtor
  default : GoVal

structure RawTemplate where
  typeName : String
  isStruct : Bool
  fields : List RawField
  validate : Option (StructVal → Except String Unit)

/-- The destructor checks of `validateConfigStructType`. -/
def validateDtor (tName : String) (f : RawField) (hasCtor : Bool) : Except String Bool :=
  match f.dtor with
  | some dtor =>
    if dtor.numIn != 1 then
      .error (tName ++ "." ++ f.name ++ ": Destroy() must take no arguments")
    else if dtor.numOut != 0 then
      .error (tName ++ "." ++ f.name ++ ": Destroy() should not return any values")
    else .ok hasCtor
  | none => .ok hasCtor

/-- The per-field checks of `validateConfigStructType`, in source order. -/
def validateField (tName : String) (f : RawField) : Except String Bool :=
  if f.isDoublePtr then
    .error (tName ++ "." ++ f.name ++ " type may not be double pointer")
  else if f.jsonTag = "" then
    .error (tName ++ "." ++ f.name ++ " has no json tag")
  else if f.isPrivate then
    .error (tName ++ "." ++ f.name ++ " is private")
  else
    match f.ctor with
    | some ctor =>
      if ctor.numIn != 2 then
        .error (tName ++ "." ++ f.name ++ ": Create() must take 1 argument for configurable value")
      else if ctor.argIsPtr then
        .error (tName ++ "." ++ f.name ++ ": Create() may not take pointer argument")
      else if ctor.numOut != 2 then
        .error (tName ++ "." ++ f.name ++ ": Create() does not return (type,error)")
      else if !ctor.returnsPtrAndErr then
        .error (tName ++ "." ++ f.name ++ ": Create() does not return (*type,error)")
      else
        validateDtor tName f true
    | none => validateDtor tName f false

def validateFieldList (tName : String) : List RawField → Except String Bool
  | [] => .ok false
  | f :: fs =>
    match validateField tName f with
    | .error e => .error e
    | .ok hasC =>
      match validateFieldList tName fs with
      | .error e => .error e
      | .ok hasRest => .ok (hasC || hasRest)

/-- `validateConfigStructType(t)`: the type must be a struct with at least
one field, and every field must pass `validateField`; returns whether any
field has a constructor (`hasConstructedValues`). -/
def validateConfigStructType (t : RawTemplate) : Except String Bool :=
  if !t.isStruct then .error (t.typeName ++ " is not a struct")
  else if t.fields.isEmpty then .error (t.typeName ++ " has no configurable fields")
  else validateFieldList t.typeName t.fields

/-- The `Field` description that `configurable.load` works with, derived
from a validated raw field. -/
def RawField.toField (f : RawField) : Field :=
  { name := f.name
    tag := f.jsonTag
    typeName := f.typeName
    isPtr := f.isPtr
    hasCtor := f.ctor.isSome
    ctorArgZero := ((f.ctor.map RawCtor.argZero).getD (.vstr ""))
    default := f.default }

/-- `Add(defaultStructValue)`: validate the struct type, build the
`configurable`, run the initial load; on any failure return the error with
the `configurableList` and the heap untouched; on success append the new
binder to the list.  (`Add(nil)` is the `t.isStruct = false` case of the
model.) -/
def configurableAdd (env : CEnv) (tmpl : RawTemplate) (list : List Configurable)
    (heap : CVHeap) (now : Nat) :
    Except String Configurable × List Configurable × CVHeap :=
  match validateConfigStructType tmpl with
  | .error e => (.error (wrapErr ("cannot use " ++ tmpl.typeName ++ " as config struct") e), list, heap)
  | .ok hasConstructedValues =>
    let c : Configurable :=
      { fields := tmpl.fields.map RawField.toField
        hasConstructedValues := hasConstructedValues
        validate := tmpl.validate
        currentId := none }
    match configurableLoad env tmpl.typeName c heap [] now with
    | (.error e, _, heap', _) => (.error (wrapErr "failed on init load" e), list, heap')
    | (.ok _, c', heap', _) => (.ok c', list ++ [c'], heap')

/-! ## The reference grammar

`namePattern = [a-zA-Z]([a-zA-Z0-9_-]*[a-zA-Z0-9])*` and
`refPattern = namePattern(\.namePattern)*`, both anchored (`^...$`).  The
character classes of the patterns only distinguish letters, digits,
underscore, hyphen, dot and everything else, so the regular expressions are
stated over that token alphabet and a string is matched after mapping each
character to its token. -/

/-- The character classes distinguished by the name/reference patterns. -/
inductive Tok where
  | letter
  | digit
  | score
  | dash
  | dot
  | other
  deriving DecidableEq, Repr

/-- Classify one character. -/
def tok (c : Char) : Tok :=
  if c.isAlpha then .letter
  else if c.isDigit then .digit
  else if c = '_' then .score
  else if c = '-' then .dash
  else if c = '.' then .dot
  else .other

/-- `[a-zA-Z]` -/
def letterRE : RegularExpression Tok := .char .letter

/-- `[a-zA-Z0-9]` -/
def alnumRE : RegularExpression Tok := .char .letter + .char .digit

/-- `[a-zA-Z0-9_-]` -/
def nameCharRE : RegularExpression Tok :=
  .char .letter + .char .digit + .char .score + .char .dash

/-- `namePattern = [a-zA-Z]([a-zA-Z0-9_-]*[a-zA-Z0-9])*` -/
def nameRE : RegularExpression Tok :=
  letterRE * (nameCharRE.star * alnumRE).star

/-- `refPattern = namePattern(\.namePattern)*` -/
def refRE : RegularExpression Tok :=
  nameRE * (RegularExpression.char Tok.dot * nameRE).star

/-- `validName(name)`: anchored match of `namePattern`. -/
def validName (s : String) : Bool := nameRE.rmatch (s.data.map tok)

/-- `validReference(ref)`: anchored match of `refPattern`. -/
def validReference (s : String) : Bool := refRE.rmatch (s.data.map tok)

/-- State touched by `flagConfigure`. -/
structure FlagRegState where
  loaded : Bool
  mustConfigureByRef : List (String × GoVal)

/-- `flagConfigure(ref, tmpl, required)` (the body of `MustConfigure` /
`MayConfigure`); each `panic` is modelled as an error result.  Registration
of a reference that does not match the reference grammar fails
immediately. -/
def flagConfigure (ref : String) (tmpl : Option GoVal) (st : FlagRegState) :
    Except String FlagRegState :=
  if st.loaded then
    .error ("config.MustConfigure(" ++ ref ++ ") called after config.Load()")
  else if !validReference ref then
    .error ("invalid config reference(" ++ ref ++ "), expecting dot-notation reference")
  else
    match tmpl with
    | none => .error ("MustConfigure(" ++ ref ++ ") cannot configure nil")
    | some t =>
      match lookupKey ref st.mustConfigureByRef with
      | some existingTmpl =>
        if t.type != existingTmpl.type then
          .error ("config.MustConfigure(" ++ ref ++ ") with conflicting type already required")
        else .ok st
      | none =>
        .ok { st with mustConfigureByRef := st.mustConfigureByRef ++ [(ref, t)] }

/-! Character-level grammar predicates used to state the reference-syntax
property. -/

/-- A character allowed inside a name: letters, digits, underscore, hyphen. -/
def isNameChar (c : Char) : Bool := c.isAlpha || c.isDigit || c = '_' || c = '-'

/-- A name as the specification states it: nonempty, only name characters,
first character a letter. -/
def specName (cs : List Char) : Bool :=
  match cs with
  | [] => false
  | c :: rest => c.isAlpha && rest.all isNameChar

/-- A name as the code accepts it: additionally the last character must be a
letter or a digit. -/
def codeName (cs : List Char) : Bool :=
  specName cs &&
    (match cs.getLast? with
     | some c => c.isAlphanum
     | none => false)

/-- Join a nonempty sequence of pieces with a separator between consecutive
pieces (`a.b.c`). -/
def sepJoin (sep : α) : List (List α) → List α
  | [] => []
  | [n] => n
  | n :: rest => n ++ sep :: sepJoin sep rest

/-- `s` is a dot-separated sequence of names, each satisfying `p`. -/
def DotSeparated (p : List Char → Bool) (s : String) : Prop :=
  ∃ names : List (List Char),
    names ≠ [] ∧ (∀ n ∈ names, p n = true) ∧ s.data = sepJoin '.' names

/-! ## Theorems -/

/-- C2: for every reference and every provider chain, resolution queries the
providers in insertion order and returns the value of the first provider
that reports a non-absent value, consulting no later provider; a provider
error aborts resolution with an error (also consulting no later provider);
and when no provider has the value, resolution with a nil template yields
absent `(nil, nil)`, not an error, at `getValue` and at the public `Get`. -/
theorem chain_first_hit_wins (env : ChainEnv) (name : String) :
    (∀ (pre post : List GoSource) (src : GoSource) (defaultValue : Option GoVal),
      (∀ s ∈ pre, s.get name = Except.ok none) →
      (∀ v, src.get name = Except.ok (some v) →
        sourcesGetValue (pre ++ src :: post) name defaultValue = .ok (some v) ∧
        consultedSources (pre ++ src :: post) name = pre.map GoSource.name ++ [src.name]) ∧
      (∀ e, src.get name = Except.error e →
        sourcesGetValue (pre ++ src :: post) name defaultValue =
          .error (wrapErr ("source(" ++ src.name ++ ").Get(" ++ name ++ ") failed") e) ∧
        consultedSources (pre ++ src :: post) name = pre.map GoSource.name ++ [src.name])) ∧
    (∀ list : List GoSource, (∀ s ∈ list, s.get name = Except.ok none) →
      sourcesGetValue list name none = .ok none ∧
      (sourcesGet env list name none).1 = .ok none) := by
  constructor
  · intro pre post src defaultValue hpre
    induction pre with
    | nil =>
      refine ⟨fun v hv => ?_, fun e he => ?_⟩
      · simp [sourcesGetValue, consultedSources, hv]
      · simp [sourcesGetValue, consultedSources, he]
    | cons s rest ih =>
      have hs : s.get name = Except.ok none := hpre s (by simp)
      have hrest : ∀ x ∈ rest, x.get name = Except.ok none := fun x hx => hpre x (by simp [hx])
      have ⟨ih1, ih2⟩ := ih hrest
      refine ⟨fun v hv => ?_, fun e he => ?_⟩
      · have := ih1 v hv
        simp [sourcesGetValue, consultedSources, hs, this.1, this.2]
      · have := ih2 e he
        simp [sourcesGetValue, consultedSources, hs, this.1, this.2]
  · intro list hall
    have hgv : sourcesGetValue list name none = .ok none := by
      induction list with
      | nil => rfl
      | cons s rest ih =>
        have hs : s.get name = Except.ok none := hall s (by simp)
        have := ih (fun x hx => hall x (by simp [hx]))
        simp [sourcesGetValue, hs, this]
    exact ⟨hgv, by simp [sourcesGet, hgv]⟩

/-- Witness for C2: the spec scenario — P1 empty, P2 defines `name = "Jan"`,
P3 defines `name = "Other"`; resolution returns `"Jan"` and P3 is never
consulted; and with no source defining the value, the chain yields
`(nil, nil)`. -/
theorem chain_first_hit_wins_witness :
    sourcesGetValue
        [⟨"P1", fun _ => .ok none⟩,
         ⟨"P2", fun _ => .ok (some (.vstr "Jan"))⟩,
         ⟨"P3", fun _ => .ok (some (.vstr "Other"))⟩] "name" none = .ok (some (.vstr "Jan")) ∧
    consultedSources
        [⟨"P1", fun _ => .ok none⟩,
         ⟨"P2", fun _ => .ok (some (.vstr "Jan"))⟩,
         ⟨"P3", fun _ => .ok (some (.vstr "Other"))⟩] "name" = ["P1", "P2"] ∧
    (sourcesGet ⟨fun v _ => .ok v, fun _ => false, fun _ => .ok ()⟩
        [⟨"P1", fun _ => .ok none⟩] "name" none).1 = .ok none := by
  have h := chain_first_hit_wins ⟨fun v _ => .ok v, fun _ => false, fun _ => .ok ()⟩ "name"
  refine ⟨?_, ?_, ?_⟩
  · exact ((h.1 [⟨"P1", fun _ => .ok none⟩]
      [⟨"P3", fun _ => .ok (some (.vstr "Other"))⟩]
      ⟨"P2", fun _ => .ok (some (.vstr "Jan"))⟩ none
      (by intro s hs; simp at hs; subst hs; rfl)).1 (.vstr "Jan") rfl).1
  · exact ((h.1 [⟨"P1", fun _ => .ok none⟩]
      [⟨"P3", fun _ => .ok (some (.vstr "Other"))⟩]
      ⟨"P2", fun _ => .ok (some (.vstr "Jan"))⟩ none
      (by intro s hs; simp at hs; subst hs; rfl)).1 (.vstr "Jan") rfl).2
  · exact (h.2 [⟨"P1", fun _ => .ok none⟩]
      (by intro s hs; simp at hs; subst hs; rfl)).2

/-- C9: the chain-level `Get` reports "not configured" (`(nil, nil)`)
whenever the value obtained by `getValue` — found in a source or taken from
the default — is the zero value of its type; in particular a single source
defining a zero value is indistinguishable at `Get` from an empty chain. -/
theorem zero_value_reports_not_configured (env : ChainEnv) (list : List GoSource)
    (name : String) (defaultValue : Option GoVal) :
    (∀ v, sourcesGetValue list name defaultValue = .ok (some v) → v.isZero = true →
      (sourcesGet env list name defaultValue).1 = .ok none) ∧
    (∀ (src : GoSource) (z : GoVal), src.get name = .ok (some z) → z.isZero = true →
      (sourcesGet env [src] name none).1 = (sourcesGet env ([] : List GoSource) name none).1) := by
  constructor
  · intro v hv hz
    simp [sourcesGet, hv, hz]
  · intro src z hsrc hz
    have h1 : sourcesGetValue [src] name none = .ok (some z) := by
      simp [sourcesGetValue, hsrc]
    simp [sourcesGet, h1, hz, sourcesGetValue, hsrc]

/-- Witness for C9: a source defining `count = 0` makes `Get` report the
value as not configured. -/
theorem zero_value_reports_not_configured_witness :
    (sourcesGet ⟨fun v _ => .ok v, fun _ => false, fun _ => .ok ()⟩
      [⟨"mem", fun _ => .ok (some (.vint 0))⟩] "count" none).1 = .ok none :=
  (zero_value_reports_not_configured ⟨fun v _ => .ok v, fun _ => false, fun _ => .ok ()⟩
      [⟨"mem", fun _ => .ok (some (.vint 0))⟩] "count" none).1 (.vint 0) rfl rfl

/-- A chain environment for concrete instances: identity conversion, no type
implements `IValidator`. -/
def plainEnv : ChainEnv := ⟨fun v _ => .ok v, fun _ => false, fun _ => .ok ()⟩

/-- A chain environment in which every type implements `IValidator` and
every `Validate()` call fails: used to show that with a nil default no
`Validate` call is made at all. -/
def alwaysInvalidEnv : ChainEnv := ⟨fun v _ => .ok v, fun _ => true, fun _ => .error "invalid"⟩

/-- C10 counterexample: with a nil default, a raw zero value from the first
source is not "returned unchanged" — the source defines `a = 0` but `Get`
returns `(nil, nil)`, so the claim's "for every call with a nil default, the
first source's raw value is returned unchanged" is false on this input. -/
theorem nil_default_zero_not_returned :
    sourcesGetValue [⟨"mem", fun _ => .ok (some (.vint 0))⟩] "a" none = .ok (some (.vint 0)) ∧
    (sourcesGet plainEnv [⟨"mem", fun _ => .ok (some (.vint 0))⟩] "a" none).1 = .ok none ∧
    (Except.ok none : Except String (Option GoVal)) ≠ .ok (some (.vint 0)) := by
  refine ⟨rfl, rfl, by simp⟩

/-- C10 amended: the chain-level `Get` performs the JSON round-trip coercion
and invokes `Validate` only when a non-nil default is supplied; with a nil
default no conversion and no `Validate` call happens (even when the value's
type exposes `Validate`), and the first source's raw value is returned
unchanged unless it is the zero value of its type, in which case `(nil,
nil)` is reported. -/
theorem nil_default_no_coercion_no_validation (env : ChainEnv) (list : List GoSource)
    (name : String) :
    (sourcesGet env list name none).2 = [] ∧
    (∀ v, sourcesGetValue list name none = .ok (some v) → v.isZero = false →
      (sourcesGet env list name none).1 = .ok (some v)) := by
  constructor
  · unfold sourcesGet
    match h : sourcesGetValue list name none with
    | .error e => simp
    | .ok none => simp
    | .ok (some v) => by_cases hz : v.isZero <;> simp [hz]
  · intro v hv hz
    simp [sourcesGet, hv, hz]

/-- Witness for C10 amended: in an environment where every `Validate` call
fails, `Get` with a nil default still returns the raw value `"x"` unchanged
with no conversion/validation events. -/
theorem nil_default_no_coercion_no_validation_witness :
    (sourcesGet alwaysInvalidEnv [⟨"mem", fun _ => .ok (some (.vstr "x"))⟩] "a" none).2 = [] ∧
    (sourcesGet alwaysInvalidEnv [⟨"mem", fun _ => .ok (some (.vstr "x"))⟩] "a" none).1 =
      .ok (some (.vstr "x")) :=
  ⟨(nil_default_no_coercion_no_validation alwaysInvalidEnv
      [⟨"mem", fun _ => .ok (some (.vstr "x"))⟩] "a").1,
   (nil_default_no_coercion_no_validation alwaysInvalidEnv
      [⟨"mem", fun _ => .ok (some (.vstr "x"))⟩] "a").2 (.vstr "x") rfl rfl⟩

/-- C7 counterexample: a double release is not detected — with consumers
`{newConfigValue, c1}`, delivering the release signal for `c1` twice leaves
exactly the same observable state (consumer set and pending queue, with no
error of any kind) as delivering it once, so the code silently ignores the
second release instead of detecting it. -/
theorem double_release_not_detected :
    cleanupLoop [creatorID, "c1"] ["c1", "c1"] = cleanupLoop [creatorID, "c1"] ["c1"] ∧
    cleanupLoop [creatorID, "c1"] ["c1", "c1"] = ([creatorID], []) := by
  constructor <;> rfl

/-- C7 amended: the release callback ends exactly its own consumer's
registration (the identity is removed and no other identity is affected);
a second release of the same identity is silently ignored — the deletion of
an absent identity is a no-op and, while other consumers remain, the cleanup
loop's observable behaviour is unchanged — rather than detected. -/
theorem release_once_second_ignored (users : List String) (a : String)
    (h : users.Nodup) :
    a ∉ releaseOne users a ∧
    (∀ b, b ≠ a → (b ∈ releaseOne users a ↔ b ∈ users)) ∧
    releaseOne (releaseOne users a) a = releaseOne users a ∧
    (∀ rest, users ≠ [] → releaseOne users a ≠ [] →
      cleanupLoop users (a :: a :: rest) = cleanupLoop users (a :: rest)) := by
  have hnm : a ∉ releaseOne users a := h.not_mem_erase
  have hid : releaseOne (releaseOne users a) a = releaseOne users a :=
    List.erase_of_not_mem hnm
  refine ⟨hnm, ?_, hid, ?_⟩
  · intro b hb
    unfold releaseOne
    exact List.mem_erase_of_ne hb
  · intro rest hne hene
    match users, hne with
    | u :: us, _ =>
      show cleanupLoop (releaseOne (u :: us) a) (a :: rest) = cleanupLoop (releaseOne (u :: us) a) rest
      match he : releaseOne (u :: us) a, hene with
      | e :: es, _ =>
        show cleanupLoop (releaseOne (e :: es) a) rest = cleanupLoop (e :: es) rest
        rw [show releaseOne (e :: es) a = e :: es from he ▸ (he ▸ hid : _)]

/-- Witness for C7 amended: concrete consumers `{newConfigValue, c1, c2}`;
releasing `c1` removes only `c1`, a repeated removal is a no-op, and the
cleanup loop treats the duplicated signal as the single one. -/
theorem release_once_second_ignored_witness :
    "c1" ∉ releaseOne [creatorID, "c1", "c2"] "c1" ∧
    ("c2" ∈ releaseOne [creatorID, "c1", "c2"] "c1" ↔ "c2" ∈ [creatorID, "c1", "c2"]) ∧
    releaseOne (releaseOne [creatorID, "c1", "c2"] "c1") "c1" =
      releaseOne [creatorID, "c1", "c2"] "c1" ∧
    cleanupLoop [creatorID, "c1", "c2"] ["c1", "c1"] =
      cleanupLoop [creatorID, "c1", "c2"] ["c1"] := by
  have h := release_once_second_ignored [creatorID, "c1", "c2"] "c1" (by decide)
  exact ⟨h.1, h.2.1 "c2" (by decide), h.2.2.1, h.2.2.2 [] (by decide) (by decide)⟩

/-- C5: for a capability reference, a resolved payload map with zero keys or
with more than one key makes resolution fail (`emptyImpl` / `multiImpl`);
exactly one key whose name has no registered constructor fails with an error
that enumerates the registered names (`unknownImpl … registeredNames`); a
single-capability registration failing this way makes `Load` fail with that
error; and whenever the resolution phase fails, `Load` returns the error
with no `Create` call having been made (constructions only run after every
reference resolved). -/
theorem capability_payload_discriminator (env : FlagEnv) (srcs : List NamedSource)
    (ty : String) (info : CInfo) (ref : String) (ns : NamedSource) :
    (∀ es, info.tmplByName ≠ [] →
      firstSourceValue srcs ref (.vmap []) = .ok (some (ns, .vmap es)) →
      (es = [] → loadConstructRef env srcs ty info ref = .error (.emptyImpl ns.name ref)) ∧
      (1 < es.length → loadConstructRef env srcs ty info ref = .error (.multiImpl ns.name ref)) ∧
      (∀ k pv, es = [(k, pv)] → lookupKey k info.tmplByName = none →
        loadConstructRef env srcs ty info ref =
          .error (.unknownImpl ref k (info.tmplByName.map Prod.fst)))) ∧
    (∀ e, loadConstructRef env srcs ty info ref = .error e →
      info.mustConstructByRef = [ref] →
      resolveConstructors env srcs [(ty, info)] = .error e) ∧
    (∀ (st : FlagState) (e : FlagErr), st.loaded = false → st.sources ≠ [] →
      (resolveConfigured st.sources st.mustConfigureByRef).1 = .ok () →
      resolveConstructors env st.sources st.constructorsByType = .error e →
      (flagLoad env st).1 = .error e ∧ (flagLoad env st).2.2 = []) := by
  refine ⟨?_, ?_, ?_⟩
  · intro es hreg hfirst
    have hne : info.tmplByName.isEmpty = false := by
      cases h : info.tmplByName with
      | nil => exact absurd h hreg
      | cons a l => rfl
    refine ⟨?_, ?_, ?_⟩
    · rintro rfl
      simp [loadConstructRef, hne, hfirst]
    · intro hlen
      match es, hlen with
      | a :: b :: rest, _ => simp [loadConstructRef, hne, hfirst]
    · rintro k pv rfl hk
      simp [loadConstructRef, hne, hfirst, hk]
  · intro e he hrefs
    simp [resolveConstructors, resolveConstructRefs, hrefs, he]
  · intro st e hloaded hne hcfg hctor
    have hsrcne : st.sources.isEmpty = false := by
      cases h : st.sources with
      | nil => exact absurd h hne
      | cons a l => rfl
    have hFlag : flagLoad env st =
        (.error e, { st with configByRef := (resolveConfigured st.sources st.mustConfigureByRef).2 }, []) := by
      unfold flagLoad
      rw [hloaded, hsrcne]
      simp only [Bool.false_eq_true, if_false]
      rcases hrc : resolveConfigured st.sources st.mustConfigureByRef with ⟨r, cfg⟩
      rw [hrc] at hcfg
      cases r with
      | error e2 => exact absurd hcfg (by simp)
      | ok u => simp only [hctor]
    rw [hFlag]
    exact ⟨rfl, rfl⟩

/-- Concrete instances for the capability-discriminator witness: one source
defining `srv = {"gopher": {}}` while only an `http` implementation is
registered for the capability type. -/
def flagEnv0 : FlagEnv := ⟨fun _ => true, fun v _ => .ok v, fun _ => .ok none⟩

def capSrc : NamedSource :=
  ⟨"mem", fun ref _ => if ref = "srv" then .ok (some (.vmap [("gopher", .vmap [])])) else .ok none⟩

def capInfo : CInfo := ⟨[("http", .vstruct "HttpCfg" [])], ["srv"]⟩

def capState : FlagState := ⟨[capSrc], [], [("IServer", capInfo)], false, []⟩

/-- Witness for C5: with the `gopher` discriminator unregistered, the
reference resolution fails with the error enumerating the registered names
(`http`), `Load` returns that error, and no `Create` call is made. -/
theorem capability_payload_discriminator_witness :
    loadConstructRef flagEnv0 [capSrc] "IServer" capInfo "srv" =
      .error (.unknownImpl "srv" "gopher" ["http"]) ∧
    (flagLoad flagEnv0 capState).1 = .error (.unknownImpl "srv" "gopher" ["http"]) ∧
    (flagLoad flagEnv0 capState).2.2 = [] := by
  have h := capability_payload_discriminator flagEnv0 [capSrc] "IServer" capInfo "srv" capSrc
  have h1 := ((h.1 [("gopher", .vmap [])] (by simp [capInfo]) rfl).2.2 "gopher" (.vmap [])
    rfl rfl)
  have h2 := h.2.1 _ h1 rfl
  have h3 := h.2.2 capState (.unknownImpl "srv" "gopher" ["http"]) rfl (by simp [capState])
    rfl h2
  exact ⟨h1, h3.1, h3.2⟩

/-! Helper lemmas about the binder. -/

theorem getValue_all_absent (list : List GoSource) (name : String) (d : Option GoVal)
    (h : ∀ s ∈ list, s.get name = Except.ok none) :
    sourcesGetValue list name d = .ok d := by
  induction list with
  | nil => rfl
  | cons s rest ih =>
    have hs := h s (by simp)
    simp [sourcesGetValue, hs, ih (fun x hx => h x (by simp [hx]))]

theorem installRevision_isOk (c : Configurable) (heap : CVHeap) (slots : StructVal)
    (now : Nat) (evs : List LEv) : (installRevision c heap slots now evs).1 = .ok () := by
  unfold installRevision
  cases c.currentId <;> rfl

theorem load_error_frame (env : CEnv) (sn : String) (c : Configurable) (heap : CVHeap)
    (names : List String) (now : Nat) (e : String)
    (h : (configurableLoad env sn c heap names now).1 = .error e) :
    (configurableLoad env sn c heap names now).2.1 = c ∧
    (configurableLoad env sn c heap names now).2.2.1 = heap := by
  rcases hlf : loadFields env sn names (oldsOf c heap) c.fields with ⟨r, evs⟩
  cases r with
  | error e0 => simp [configurableLoad, hlf]
  | ok slots =>
    cases hva : c.validate with
    | none =>
      exfalso
      have hok : (configurableLoad env sn c heap names now).1 = .ok () := by
        simp [configurableLoad, hlf, hva, installRevision_isOk]
      rw [hok] at h
      exact Except.noConfusion h
    | some va =>
      cases hr : va slots with
      | error e1 => simp [configurableLoad, hlf, hva, hr]
      | ok u =>
        exfalso
        have hok : (configurableLoad env sn c heap names now).1 = .ok () := by
          simp [configurableLoad, hlf, hva, hr, installRevision_isOk]
        rw [hok] at h
        exact Except.noConfusion h

/-- C1: every load-time failure is all-or-nothing: if `configurable.load`
fails, the binder's current-Revision pointer and the revision heap are
exactly as before (the previous Revision stays authoritative and is not
retired); a failing initial load makes `Add` return the error without
installing any binder; and a failing `Notify`-triggered reload leaves the
state unchanged (fail-static). -/
theorem load_failure_all_or_nothing (env : CEnv) (sn : String) (c : Configurable)
    (heap : CVHeap) (names : List String) (now : Nat) :
    (∀ e, (configurableLoad env sn c heap names now).1 = .error e →
      (configurableLoad env sn c heap names now).2.1 = c ∧
      (configurableLoad env sn c heap names now).2.2.1 = heap) ∧
    (∀ (tmpl : RawTemplate) (list : List Configurable) (e : String),
      (configurableAdd env tmpl list heap now).1 = .error e →
      (configurableAdd env tmpl list heap now).2.1 = list ∧
      (configurableAdd env tmpl list heap now).2.2 = heap) ∧
    (∀ nm e, (configurableLoad env sn c heap [nm] now).1 = .error e →
      (configurableNotify env sn c heap nm now).1 = c ∧
      (configurableNotify env sn c heap nm now).2.1 = heap) := by
  refine ⟨fun e he => load_error_frame env sn c heap names now e he, ?_, ?_⟩
  · intro tmpl list e he
    cases hv : validateConfigStructType tmpl with
    | error e0 => simp [configurableAdd, hv]
    | ok hasC =>
      rcases hld : configurableLoad env tmpl.typeName
          { fields := tmpl.fields.map RawField.toField, hasConstructedValues := hasC,
            validate := tmpl.validate, currentId := none } heap [] now with ⟨r, c2, h2, evs⟩
      cases r with
      | error e0 =>
        have hframe := load_error_frame env tmpl.typeName
          { fields := tmpl.fields.map RawField.toField, hasConstructedValues := hasC,
            validate := tmpl.validate, currentId := none } heap [] now e0 (by rw [hld])
        rw [hld] at hframe
        have hh2 : h2 = heap := hframe.2
        subst hh2
        simp [configurableAdd, hv, hld]
      | ok u =>
        exfalso
        have : (configurableAdd env tmpl list heap now).1 = .ok c2 := by
          simp [configurableAdd, hv, hld]
        rw [this] at he
        exact Except.noConfusion he
  · intro nm e he
    rcases hld : configurableLoad env sn c heap [nm] now with ⟨r, c2, h2, evs⟩
    have hframe := load_error_frame env sn c heap [nm] now e (by rw [hld]; rw [hld] at he; exact he)
    rw [hld] at hframe
    cases r with
    | error e0 =>
      have hc2 : c2 = c := hframe.1
      have hh2 : h2 = heap := hframe.2
      simp [configurableNotify, hld, hc2, hh2]
    | ok u =>
      rw [hld] at he
      exact Except.noConfusion he

/-- Concrete instances for the binder witnesses: an empty provider chain and
a config struct with one required plain `int` field `port` whose default is
zero, so every load fails with a missing-config error. -/
def cenvEmpty : CEnv := ⟨[], plainEnv, fun _ v => .ok v⟩

def reqField : Field := ⟨"Port", "port", "int", false, false, .vint 0, .vint 0⟩

def creq : Configurable := ⟨[reqField], false, none, none⟩

def rawReqField : RawField := ⟨"Port", "port", "int", false, false, false, none, none, .vint 0⟩

def rawReqTmpl : RawTemplate := ⟨"Cfg", true, [rawReqField], none⟩

/-- Witness for C1: the missing required `port` makes load, `Add` and
`Notify` all fail while leaving binder, binder list and heap untouched. -/
theorem load_failure_all_or_nothing_witness :
    (configurableLoad cenvEmpty "Cfg" creq [] [] 0).2.1 = creq ∧
    (configurableLoad cenvEmpty "Cfg" creq [] [] 0).2.2.1 = [] ∧
    (configurableAdd cenvEmpty rawReqTmpl [] [] 0).2.1 = [] ∧
    (configurableAdd cenvEmpty rawReqTmpl [] [] 0).2.2 = [] ∧
    (configurableNotify cenvEmpty "Cfg" creq [] "port" 0).1 = creq ∧
    (configurableNotify cenvEmpty "Cfg" creq [] "port" 0).2.1 = [] := by
  have h := load_failure_all_or_nothing cenvEmpty "Cfg" creq [] [] 0
  have h1 := h.1 "Cfg.Port: missing config port" rfl
  have h2 := h.2.1 rawReqTmpl [] "failed on init load: Cfg.Port: missing config port" rfl
  have h3 := h.2.2 "port" "Cfg.Port: missing config port" rfl
  exact ⟨h1.1, h1.2, h2.1, h2.2, h3.1, h3.2⟩

theorem loadFieldFresh_missing (env : CEnv) (sn : String) (f : Field)
    (hc : f.hasCtor = false) (hp : f.isPtr = false) (hz : f.default.isZero = true)
    (habs : ∀ s ∈ env.chain, s.get f.tag = Except.ok none) :
    loadFieldFresh env sn f =
      (.error (sn ++ "." ++ f.name ++ ": missing config " ++ f.tag), [.resolve f.tag]) := by
  have hgv : sourcesGetValue env.chain f.tag (some f.default) = .ok (some f.default) :=
    getValue_all_absent _ _ _ habs
  have hsg : (sourcesGet env.conv env.chain f.tag (some f.default)).1 = .ok none := by
    simp [sourcesGet, hgv, hz]
  simp [loadFieldFresh, hc, hsg, hp]

theorem loadFields_absent_required_error (env : CEnv) (sn : String) (fs : List Field)
    (f : Field) (hmem : f ∈ fs) (hc : f.hasCtor = false) (hp : f.isPtr = false)
    (hz : f.default.isZero = true)
    (habs : ∀ s ∈ env.chain, s.get f.tag = Except.ok none) :
    ∃ e, (loadFields env sn [] none fs).1 = .error e := by
  induction fs with
  | nil => cases hmem
  | cons g gs ih =>
    rcases hlf : loadField env sn [] none g with ⟨r, evs⟩
    cases r with
    | error e => exact ⟨e, by simp [loadFields, hlf]⟩
    | ok slot =>
      rcases List.mem_cons.mp hmem with hgf | hmem'
      · exfalso
        have herr := loadFieldFresh_missing env sn f hc hp hz habs
        have hred : loadField env sn [] none g = loadFieldFresh env sn g := rfl
        rw [hred, ← hgf, herr] at hlf
        exact Except.noConfusion (congrArg Prod.fst hlf)
      · obtain ⟨e, he⟩ := ih hmem'
        rcases hres : loadFields env sn [] none gs with ⟨r2, evs2⟩
        rw [hres] at he
        have hr2 : r2 = .error e := he
        subst hr2
        exact ⟨e, by simp [loadFields, hlf, hres]⟩

/-- C6 counterexample: a template whose single plain non-pointer field
`port` has the non-zero default `8080`, with no provider defining it (empty
chain), does not fail — `Add` succeeds, the default is used, and a binder
with Revision 1 is installed.  This refutes the claim that absence from
every provider alone makes the load of a required plain field fail. -/
theorem absent_plain_nonzero_default_installs :
    (configurableAdd cenvEmpty ⟨"Cfg", true, [⟨"Port", "port", "int", false, false, false, none, none, .vint 8080⟩], none⟩ [] [] 0).1.isOk = true ∧
    (configurableAdd cenvEmpty ⟨"Cfg", true, [⟨"Port", "port", "int", false, false, false, none, none, .vint 8080⟩], none⟩ [] [] 0).2.1.length = 1 ∧
    (configurableAdd cenvEmpty ⟨"Cfg", true, [⟨"Port", "port", "int", false, false, false, none, none, .vint 8080⟩], none⟩ [] [] 0).2.2 =
      [⟨[some (.vint 8080)], 1, 0, [creatorID]⟩] := by
  refine ⟨rfl, rfl, rfl⟩

/-- C6 amended: for a template field that is plain (no constructor),
non-optional (not a pointer), absent from every provider, and whose default
value in the template is the zero value of its type, the `Add`-triggered
load fails and no binder is installed (list and heap unchanged); when it is
the template's only field the error is the missing-required-configuration
error for that reference. -/
theorem absent_required_plain_fails (env : CEnv) (tmpl : RawTemplate)
    (list : List Configurable) (heap : CVHeap) (now : Nat) (f : RawField) (hasC : Bool)
    (hv : validateConfigStructType tmpl = .ok hasC)
    (hmem : f ∈ tmpl.fields) (hc : f.ctor = none) (hp : f.isPtr = false)
    (hz : f.default.isZero = true)
    (habs : ∀ s ∈ env.chain, s.get f.jsonTag = Except.ok none) :
    (∃ e, (configurableAdd env tmpl list heap now).1 = .error e) ∧
    (configurableAdd env tmpl list heap now).2.1 = list ∧
    (configurableAdd env tmpl list heap now).2.2 = heap ∧
    (tmpl.fields = [f] →
      (configurableAdd env tmpl list heap now).1 =
        .error (wrapErr "failed on init load"
          (tmpl.typeName ++ "." ++ f.name ++ ": missing config " ++ f.jsonTag))) := by
  have hmem' : f.toField ∈ tmpl.fields.map RawField.toField := List.mem_map_of_mem _ hmem
  have hcF : f.toField.hasCtor = false := by simp [RawField.toField, hc]
  have hpF : f.toField.isPtr = false := hp
  have hzF : f.toField.default.isZero = true := hz
  have habsF : ∀ s ∈ env.chain, s.get f.toField.tag = Except.ok none := habs
  set c0 : Configurable :=
    { fields := tmpl.fields.map RawField.toField, hasConstructedValues := hasC,
      validate := tmpl.validate, currentId := none } with hc0
  obtain ⟨e0, he0⟩ :=
    loadFields_absent_required_error env tmpl.typeName (tmpl.fields.map RawField.toField)
      f.toField hmem' hcF hpF hzF habsF
  have holds : oldsOf c0 heap = none := rfl
  have hload : (configurableLoad env tmpl.typeName c0 heap [] now).1 = .error e0 := by
    rcases hlf : loadFields env tmpl.typeName [] (oldsOf c0 heap) c0.fields with ⟨r, evs⟩
    have : r = .error e0 := by
      have := congrArg Prod.fst hlf
      rw [holds] at hlf
      rw [show c0.fields = tmpl.fields.map RawField.toField from rfl] at hlf
      rw [hlf] at he0
      exact he0.symm ▸ rfl
    subst this
    simp [configurableLoad, hlf]
  rcases hld : configurableLoad env tmpl.typeName c0 heap [] now with ⟨r, c2, h2, evs⟩
  have hr : r = .error e0 := by rw [hld] at hload; exact hload
  subst hr
  have hframe := load_error_frame env tmpl.typeName c0 heap [] now e0 (by rw [hld])
  rw [hld] at hframe
  have hh2 : h2 = heap := hframe.2
  subst hh2
  refine ⟨⟨wrapErr "failed on init load" e0, by simp [configurableAdd, hv, ← hc0, hld]⟩,
    by simp [configurableAdd, hv, ← hc0, hld], by simp [configurableAdd, hv, ← hc0, hld], ?_⟩
  intro hone
  have hmsg : e0 = tmpl.typeName ++ "." ++ f.name ++ ": missing config " ++ f.jsonTag := by
    have herr := loadFieldFresh_missing env tmpl.typeName f.toField hcF hpF hzF habsF
    have : (loadFields env tmpl.typeName [] none (tmpl.fields.map RawField.toField)).1 =
        .error (tmpl.typeName ++ "." ++ f.toField.name ++ ": missing config " ++ f.toField.tag) := by
      rw [hone]
      simp [loadFields, loadField, herr]
    rw [this] at he0
    exact (Except.error.injEq _ _).mp he0.symm
  rw [hmsg] at hld
  simp [configurableAdd, hv, ← hc0, hld]

/-- Witness for C6 amended: the concrete required plain `port` with zero
default and empty chain — `Add` fails with the missing-config error and no
binder is installed. -/
theorem absent_required_plain_fails_witness :
    (∃ e, (configurableAdd cenvEmpty rawReqTmpl [] [] 0).1 = .error e) ∧
    (configurableAdd cenvEmpty rawReqTmpl [] [] 0).2.1 = ([] : List Configurable) ∧
    (configurableAdd cenvEmpty rawReqTmpl [] [] 0).1 =
      .error "failed on init load: Cfg.Port: missing config port" := by
  have h := absent_required_plain_fails cenvEmpty rawReqTmpl [] [] 0 rawReqField false
    rfl (by simp [rawReqTmpl]) rfl rfl rfl (by intro s hs; simp [cenvEmpty] at hs)
  exact ⟨h.1, h.2.1, h.2.2.2 rfl⟩

/-- The reference a load event is about. -/
def evTag : LEv → String
  | .resolve t => t
  | .construct t => t

theorem loadFieldFresh_evtags (env : CEnv) (sn : String) (f : Field) :
    ∀ ev ∈ (loadFieldFresh env sn f).2, evTag ev = f.tag := by
  intro ev hev
  unfold loadFieldFresh at hev
  rcases hc : f.hasCtor with _ | _ <;>
    simp only [hc, Bool.not_true, Bool.not_false, Bool.false_eq_true, eq_self_iff_true,
      ite_true, ite_false] at hev
  · rcases hsg : (sourcesGet env.conv env.chain f.tag (some f.default)).1 with e | cfv <;>
      rw [hsg] at hev
    · simp at hev
      simp [hev, evTag]
    · by_cases hif : (!f.isPtr && cfv.isNone) = true <;> simp [hif] at hev <;>
        simp [hev, evTag]
  · rcases hsg : (sourcesGet env.conv env.chain f.tag (some f.ctorArgZero)).1 with e | cfv <;>
      rw [hsg] at hev
    · simp at hev
      simp [hev, evTag]
    · cases cfv with
      | none =>
        by_cases hif : f.isPtr = true <;> simp [hif] at hev <;> simp [hev, evTag]
      | some cfgv =>
        rcases hco : env.construct f.typeName cfgv with e | inst <;> simp only [hco] at hev <;>
          simp at hev <;> rcases hev with h | h <;> simp [h, evTag]

theorem loadField_evtags (env : CEnv) (sn : String) (onlyNames : List String)
    (ov : Option GoVal) (f : Field) (hne : onlyNames ≠ []) :
    ∀ ev ∈ (loadField env sn onlyNames (some ov) f).2, evTag ev ∈ onlyNames := by
  intro ev hev
  have hev' : ev ∈ (if (decide (onlyNames.length > 0) && !onlyNames.contains f.tag) = true
      then ((Except.ok ov : Except String (Option GoVal)), ([] : List LEv))
      else loadFieldFresh env sn f).2 := hev
  by_cases hc : onlyNames.contains f.tag = true
  · rw [if_neg (by rw [hc]; simp)] at hev'
    have htag := loadFieldFresh_evtags env sn f ev hev'
    rw [htag]
    exact List.mem_of_elem_eq_true hc
  · have hb : onlyNames.contains f.tag = false := by
      cases h2 : onlyNames.contains f.tag
      · rfl
      · exact absurd h2 hc
    rw [if_pos (by rw [hb]; simp [List.length_pos.mpr hne])] at hev'
    cases hev' 

theorem loadFields_evtags (env : CEnv) (sn : String) (onlyNames : List String)
    (olds : StructVal) (fs : List Field) (hne : onlyNames ≠ []) :
    ∀ ev ∈ (loadFields env sn onlyNames (some olds) fs).2, evTag ev ∈ onlyNames := by
  induction fs generalizing olds with
  | nil => intro ev hev; cases hev
  | cons g gs ih =>
    intro ev hev
    have hhead : (some olds).map (fun l => l.headD none) = some (olds.headD none) := rfl
    have htail : (some olds).map List.tail = some olds.tail := rfl
    rcases hlf : loadField env sn onlyNames (some (olds.headD none)) g with ⟨r, evs⟩
    have hfe : ∀ e2 ∈ evs, evTag e2 ∈ onlyNames := by
      intro e2 he2
      exact loadField_evtags env sn onlyNames (olds.headD none) g hne e2 (by rw [hlf]; exact he2)
    cases r with
    | error e =>
      rw [show loadFields env sn onlyNames (some olds) (g :: gs) = (.error e, evs) by
        simp only [loadFields]; rw [hhead, htail, hlf]] at hev
      exact hfe ev hev
    | ok slot =>
      rcases hres : loadFields env sn onlyNames (some olds.tail) gs with ⟨r2, evs2⟩
      have hre : ∀ e2 ∈ evs2, evTag e2 ∈ onlyNames := by
        intro e2 he2
        exact ih olds.tail e2 (by rw [hres]; exact he2)
      cases r2 with
      | error e =>
        rw [show loadFields env sn onlyNames (some olds) (g :: gs) = (.error e, evs ++ evs2) by
          simp only [loadFields]; rw [hhead, htail, hlf, hres]] at hev
        rcases List.mem_append.mp hev with h | h
        · exact hfe ev h
        · exact hre ev h
      | ok slots =>
        rw [show loadFields env sn onlyNames (some olds) (g :: gs) =
            (.ok (slot :: slots), evs ++ evs2) by
          simp only [loadFields]; rw [hhead, htail, hlf, hres]] at hev
        rcases List.mem_append.mp hev with h | h
        · exact hfe ev h
        · exact hre ev h

theorem loadFields_keep (env : CEnv) (sn : String) (onlyNames : List String)
    (hne : onlyNames ≠ []) (fs : List Field) :
    ∀ (olds : StructVal) (slots : StructVal) (evs : List LEv),
      loadFields env sn onlyNames (some olds) fs = (.ok slots, evs) →
      slots.length = fs.length ∧
      (∀ i g, fs.get? i = some g → g.tag ∉ onlyNames →
        slots.get? i = some ((olds.get? i).getD none)) := by
  induction fs with
  | nil =>
    intro olds slots evs h
    simp [loadFields] at h
    simp [h.1]
  | cons g gs ih =>
    intro olds slots evs h
    have hhead : (some olds).map (fun l => l.headD none) = some (olds.headD none) := rfl
    have htail : (some olds).map List.tail = some olds.tail := rfl
    rcases hlf : loadField env sn onlyNames (some (olds.headD none)) g with ⟨r, evs0⟩
    cases r with
    | error e =>
      rw [show loadFields env sn onlyNames (some olds) (g :: gs) = (.error e, evs0) by
        simp only [loadFields]; rw [hhead, htail, hlf]] at h
      exact absurd (congrArg Prod.fst h) (by simp)
    | ok slot =>
      rcases hres : loadFields env sn onlyNames (some olds.tail) gs with ⟨r2, evs2⟩
      cases r2 with
      | error e =>
        rw [show loadFields env sn onlyNames (some olds) (g :: gs) = (.error e, evs0 ++ evs2) by
          simp only [loadFields]; rw [hhead, htail, hlf, hres]] at h
        exact absurd (congrArg Prod.fst h) (by simp)
      | ok slots2 =>
        rw [show loadFields env sn onlyNames (some olds) (g :: gs) =
            (.ok (slot :: slots2), evs0 ++ evs2) by
          simp only [loadFields]; rw [hhead, htail, hlf, hres]] at h
        have hs : slot :: slots2 = slots := by
          have := congrArg Prod.fst h
          simpa using this
        obtain ⟨ihl, ihc⟩ := ih olds.tail slots2 evs2 hres
        subst hs
        constructor
        · simp [ihl]
        · intro i gg hg hnot
          cases i with
          | zero =>
            have hgg : g = gg := by simpa using hg
            subst hgg
            have hcontains : onlyNames.contains g.tag = false := by
              cases h2 : onlyNames.contains g.tag
              · rfl
              · exact absurd (List.mem_of_elem_eq_true h2) hnot
            have hcopy : loadField env sn onlyNames (some (olds.headD none)) g =
                (.ok (olds.headD none), []) := by
              show (if (decide (onlyNames.length > 0) && !onlyNames.contains g.tag) = true
                  then ((Except.ok (olds.headD none) : Except String (Option GoVal)), ([] : List LEv))
                  else loadFieldFresh env sn g) = (.ok (olds.headD none), [])
              rw [if_pos (by rw [hcontains]; simp [List.length_pos.mpr hne])]
            rw [hcopy] at hlf
            have hslot : slot = olds.headD none := by
              have := congrArg Prod.fst hlf
              simpa using this.symm
            subst hslot
            cases olds <;> rfl
          | succ i' =>
            simp only [List.get?_cons_succ] at hg ⊢
            have := ihc i' gg hg hnot
            rw [this]
            cases olds <;> rfl

theorem modifyAt_length (i : Nat) (f : α → α) (l : List α) :
    (modifyAt i f l).length = l.length := by
  induction l generalizing i with
  | nil => simp [modifyAt]
  | cons x xs ih =>
    cases i with
    | zero => simp [modifyAt]
    | succ i' => simp [modifyAt, ih]

theorem modifyAt_get? (i j : Nat) (f : α → α) (l : List α) :
    (modifyAt i f l).get? j = if j = i then (l.get? j).map f else l.get? j := by
  induction l generalizing i j with
  | nil => simp [modifyAt]
  | cons x xs ih =>
    cases i with
    | zero =>
      cases j with
      | zero => simp [modifyAt]
      | succ j' => simp [modifyAt]
    | succ i' =>
      cases j with
      | zero => simp [modifyAt]
      | succ j' => simpa [modifyAt] using ih i' j' 

theorem load_ok_inv (env : CEnv) (sn : String) (c : Configurable) (heap : CVHeap)
    (names : List String) (now : Nat) (c' : Configurable) (heap' : CVHeap) (evs : List LEv)
    (h : configurableLoad env sn c heap names now = (.ok (), c', heap', evs)) :
    ∃ slots evs0,
      loadFields env sn names (oldsOf c heap) c.fields = (.ok slots, evs0) ∧
      installRevision c heap slots now evs0 = (.ok (), c', heap', evs) := by
  rcases hlf : loadFields env sn names (oldsOf c heap) c.fields with ⟨r, evs0⟩
  cases r with
  | error e =>
    rw [show configurableLoad env sn c heap names now = (.error e, c, heap, evs0) by
      simp [configurableLoad, hlf]] at h
    exact absurd (congrArg Prod.fst h) (by simp)
  | ok slots =>
    refine ⟨slots, evs0, rfl, ?_⟩
    cases hva : c.validate with
    | none =>
      rw [show configurableLoad env sn c heap names now = installRevision c heap slots now evs0 by
        simp [configurableLoad, hlf, hva]] at h
      exact h
    | some va =>
      cases hvr : va slots with
      | error e =>
        rw [show configurableLoad env sn c heap names now =
            (.error (wrapErr "invalid config" e), c, heap, evs0) by
          simp [configurableLoad, hlf, hva, hvr]] at h
        exact absurd (congrArg Prod.fst h) (by simp)
      | ok u =>
        rw [show configurableLoad env sn c heap names now =
            installRevision c heap slots now evs0 by
          simp [configurableLoad, hlf, hva, hvr]] at h
        exact h

theorem installRevision_none (c : Configurable) (heap : CVHeap) (slots : StructVal)
    (now : Nat) (evs : List LEv) (h : c.currentId = none) :
    installRevision c heap slots now evs =
      (.ok (), { c with currentId := some heap.length },
       heap ++ [⟨slots, 1, now, [creatorID]⟩], evs) := by
  unfold installRevision
  rw [h]

/-- `c.currentReleaseFunc()` observed by the cleanup loop: the creator
consumer is removed from the superseded revision. -/
def retireCreator (id : Nat) (heap : CVHeap) : CVHeap :=
  modifyAt id (fun cv => { cv with users := cv.users.erase creatorID }) heap

theorem installRevision_some (c : Configurable) (heap : CVHeap) (slots : StructVal)
    (now : Nat) (evs : List LEv) (id : Nat) (h : c.currentId = some id) :
    installRevision c heap slots now evs =
      (.ok (),
       { c with currentId := some (retireCreator id heap).length },
       retireCreator id heap ++
         [⟨slots, ((heap.get? id).map ConfigValue.revision).getD 0 + 1, now, [creatorID]⟩],
       evs) := by
  unfold installRevision
  rw [h]
  rfl

theorem load_evs (env : CEnv) (sn : String) (c : Configurable) (heap : CVHeap)
    (names : List String) (now : Nat) :
    (configurableLoad env sn c heap names now).2.2.2 =
      (loadFields env sn names (oldsOf c heap) c.fields).2 := by
  rcases hlf : loadFields env sn names (oldsOf c heap) c.fields with ⟨r, evs⟩
  cases r with
  | error e => simp [configurableLoad, hlf]
  | ok slots =>
    cases hva : c.validate with
    | none =>
      cases hcid : c.currentId <;>
        simp [configurableLoad, hlf, hva, installRevision, hcid]
    | some va =>
      cases hvr : va slots with
      | error e => simp [configurableLoad, hlf, hva, hvr]
      | ok u =>
        cases hcid : c.currentId <;>
          simp [configurableLoad, hlf, hva, hvr, installRevision, hcid]

theorem notify_evs (env : CEnv) (sn : String) (c : Configurable) (heap : CVHeap)
    (nm : String) (now : Nat) :
    (configurableNotify env sn c heap nm now).2.2 =
      (configurableLoad env sn c heap [nm] now).2.2.2 := by
  unfold configurableNotify
  rcases hld : configurableLoad env sn c heap [nm] now with ⟨r, c2, h2, evs⟩
  cases r <;> simp

/-- C3: a `Notify(reference)`-triggered reload touches only the matching
field(s): every resolution/construction event of the reload is for the
notified tag, and on success every field whose tag differs from the notified
reference is copied unchanged (slot for slot) from the current Revision's
snapshot into the new Revision. -/
theorem notify_reload_granularity (env : CEnv) (sn : String) (c : Configurable)
    (heap : CVHeap) (nm : String) (now : Nat) (id : Nat) (cv : ConfigValue)
    (hid : c.currentId = some id) (hcv : heap.get? id = some cv) :
    (∀ ev ∈ (configurableNotify env sn c heap nm now).2.2, evTag ev = nm) ∧
    (∀ (c' : Configurable) (heap' : CVHeap) (evs : List LEv),
      configurableLoad env sn c heap [nm] now = (.ok (), c', heap', evs) →
      c'.currentId = some heap.length ∧
      ∃ ncv, heap'.get? heap.length = some ncv ∧
        ncv.structVal.length = c.fields.length ∧
        ∀ i g, c.fields.get? i = some g → g.tag ≠ nm →
          ncv.structVal.get? i = some ((cv.structVal.get? i).getD none)) := by
  have holds : oldsOf c heap = some cv.structVal := by
    unfold oldsOf
    rw [hid]
    show (heap.get? id).map ConfigValue.structVal = some cv.structVal
    rw [hcv]
    rfl
  constructor
  · intro ev hev
    rw [notify_evs, load_evs, holds] at hev
    have := loadFields_evtags env sn [nm] cv.structVal c.fields (by simp) ev hev
    simpa using this
  · intro c' heap' evs h
    obtain ⟨slots, evs0, hlf, hins⟩ := load_ok_inv env sn c heap [nm] now c' heap' evs h
    rw [installRevision_some c heap slots now evs0 id hid] at hins
    have hc' : c' = { c with currentId := some (retireCreator id heap).length } := by
      have := congrArg (fun t => t.2.1) hins
      simpa using this.symm
    have hh' : heap' = retireCreator id heap ++
        [⟨slots, ((heap.get? id).map ConfigValue.revision).getD 0 + 1, now, [creatorID]⟩] := by
      have := congrArg (fun t => t.2.2.1) hins
      simpa using this.symm
    have hlen : (retireCreator id heap).length = heap.length := modifyAt_length id _ heap
    rw [holds] at hlf
    obtain ⟨hslen, hcopy⟩ := loadFields_keep env sn [nm] (by simp) c.fields cv.structVal
      slots evs0 hlf
    refine ⟨by rw [hc', hlen], ⟨slots, ((heap.get? id).map ConfigValue.revision).getD 0 + 1,
      now, [creatorID]⟩, ?_, hslen, ?_⟩
    · rw [hh', ← hlen]
      exact List.get?_concat_length _ _
    · intro i g hg hne
      exact hcopy i g hg (by simpa using hne)

/-- C4: every successful load installs exactly one new Revision: the heap
grows by one, the binder's current pointer moves to the new Revision, every
pre-existing Revision keeps its snapshot and number (a held reference to the
previous Revision still obtains its snapshot), the first successful load is
numbered 1, and a load over a current Revision `cv` is numbered
`cv.revision + 1 > cv.revision` (strict increase). -/
theorem revision_numbering (env : CEnv) (sn : String) (c : Configurable) (heap : CVHeap)
    (names : List String) (now : Nat) (c' : Configurable) (heap' : CVHeap) (evs : List LEv)
    (h : configurableLoad env sn c heap names now = (.ok (), c', heap', evs)) :
    heap'.length = heap.length + 1 ∧
    c'.currentId = some heap.length ∧
    (∀ j cvj, heap.get? j = some cvj → ∃ cvj', heap'.get? j = some cvj' ∧
      cvj'.structVal = cvj.structVal ∧ cvj'.revision = cvj.revision) ∧
    (c.currentId = none → ∃ ncv, heap'.get? heap.length = some ncv ∧ ncv.revision = 1) ∧
    (∀ id cv, c.currentId = some id → heap.get? id = some cv →
      ∃ ncv, heap'.get? heap.length = some ncv ∧ ncv.revision = cv.revision + 1 ∧
        cv.revision < ncv.revision) := by
  obtain ⟨slots, evs0, hlf, hins⟩ := load_ok_inv env sn c heap names now c' heap' evs h
  cases hcid : c.currentId with
  | none =>
    rw [installRevision_none c heap slots now evs0 hcid] at hins
    have hc' : c' = { c with currentId := some heap.length } := by
      have := congrArg (fun t => t.2.1) hins
      simpa using this.symm
    have hh' : heap' = heap ++ [⟨slots, 1, now, [creatorID]⟩] := by
      have := congrArg (fun t => t.2.2.1) hins
      simpa using this.symm
    subst hh'
    refine ⟨by simp, by rw [hc'], ?_, ?_, ?_⟩
    · intro j cvj hj
      have hjlt : j < heap.length := by
        by_contra hge
        rw [List.get?_eq_none.mpr (Nat.le_of_not_lt hge)] at hj
        exact Option.noConfusion hj
      exact ⟨cvj, by rw [List.get?_append hjlt]; exact hj, rfl, rfl⟩
    · intro _
      exact ⟨⟨slots, 1, now, [creatorID]⟩, List.get?_concat_length _ _, rfl⟩
    · intro id cv hcontra
      exact absurd hcontra (by simp)
  | some id =>
    rw [installRevision_some c heap slots now evs0 id hcid] at hins
    have hc' : c' = { c with currentId := some (retireCreator id heap).length } := by
      have := congrArg (fun t => t.2.1) hins
      simpa using this.symm
    have hh' : heap' = retireCreator id heap ++
        [⟨slots, ((heap.get? id).map ConfigValue.revision).getD 0 + 1, now, [creatorID]⟩] := by
      have := congrArg (fun t => t.2.2.1) hins
      simpa using this.symm
    have hlen : (retireCreator id heap).length = heap.length := modifyAt_length id _ heap
    subst hh'
    refine ⟨by simp [hlen], by rw [hc', hlen], ?_, ?_, ?_⟩
    · intro j cvj hj
      have hjlt : j < heap.length := by
        by_contra hge
        rw [List.get?_eq_none.mpr (Nat.le_of_not_lt hge)] at hj
        exact Option.noConfusion hj
      rw [List.get?_append (by rw [hlen]; exact hjlt)]
      unfold retireCreator
      rw [modifyAt_get?]
      by_cases hji : j = id
      · subst hji
        refine ⟨{ cvj with users := cvj.users.erase creatorID }, ?_, rfl, rfl⟩
        rw [if_pos rfl, hj]
        rfl
      · rw [if_neg hji, hj]
        exact ⟨cvj, rfl, rfl, rfl⟩
    · intro hcontra
      exact Option.noConfusion hcontra
    · intro id2 cv hid2 hcv2
      have hid2' : id2 = id := by
        have h2 := hid2
        simp only [Option.some.injEq] at h2
        exact h2.symm
      subst hid2'
      refine ⟨⟨slots, ((heap.get? id2).map ConfigValue.revision).getD 0 + 1, now, [creatorID]⟩,
        ?_, ?_, ?_⟩
      · rw [← hlen]
        exact List.get?_concat_length _ _
      · show ((heap.get? id2).map ConfigValue.revision).getD 0 + 1 = cv.revision + 1
        rw [hcv2]
        rfl
      · show cv.revision < ((heap.get? id2).map ConfigValue.revision).getD 0 + 1
        rw [hcv2]
        exact Nat.lt_succ_self _

/-- Concrete instances for the reload witnesses: one source defining
`a = "A1"` and `b = "B1"`, a two-field binder whose current Revision 1 holds
the snapshot `["A0", "B0"]` with one extra consumer. -/
def twoSrc : GoSource :=
  ⟨"mem", fun n => if n = "a" then .ok (some (.vstr "A1"))
    else if n = "b" then .ok (some (.vstr "B1")) else .ok none⟩

def cenvTwo : CEnv := ⟨[twoSrc], plainEnv, fun _ v => .ok v⟩

def fieldA : Field := ⟨"A", "a", "string", false, false, .vstr "", .vstr ""⟩

def fieldB : Field := ⟨"B", "b", "string", false, false, .vstr "", .vstr ""⟩

def ctwo : Configurable := ⟨[fieldA, fieldB], false, none, some 0⟩

def cv0 : ConfigValue := ⟨[some (.vstr "A0"), some (.vstr "B0")], 1, 0, [creatorID, "user1"]⟩

def heap0 : CVHeap := [cv0]

def cfresh : Configurable := ⟨[fieldA, fieldB], false, none, none⟩

/-- Witness for C3: `Notify("b")` on the two-field binder re-resolves only
`b` (every event is for `b`) and copies field `A` unchanged from Revision 1
into the new Revision. -/
theorem notify_reload_granularity_witness :
    (∀ ev ∈ (configurableNotify cenvTwo "Cfg2" ctwo heap0 "b" 5).2.2, evTag ev = "b") ∧
    (∃ ncv, ((configurableLoad cenvTwo "Cfg2" ctwo heap0 ["b"] 5).2.2.1).get? 1 = some ncv ∧
      ncv.structVal.get? 0 = some (some (.vstr "A0"))) := by
  have h := notify_reload_granularity cenvTwo "Cfg2" ctwo heap0 "b" 5 0 cv0 rfl rfl
  refine ⟨h.1, ?_⟩
  obtain ⟨hcid, ncv, hget, hlen, hcopy⟩ := h.2 _ _ _ rfl
  exact ⟨ncv, hget, hcopy 0 fieldA rfl (by decide)⟩

/-- Witness for C4: reloading over Revision 1 installs exactly one Revision
numbered 2, keeps the held Revision-1 snapshot intact, and a first
successful load (no current revision) installs Revision 1. -/
theorem revision_numbering_witness :
    (∃ ncv, ((configurableLoad cenvTwo "Cfg2" ctwo heap0 ["b"] 5).2.2.1).get? 1 = some ncv ∧
      ncv.revision = 2) ∧
    (∃ cv0', ((configurableLoad cenvTwo "Cfg2" ctwo heap0 ["b"] 5).2.2.1).get? 0 = some cv0' ∧
      cv0'.structVal = cv0.structVal) ∧
    ((configurableLoad cenvTwo "Cfg2" ctwo heap0 ["b"] 5).2.2.1).length = 2 ∧
    (∃ ncv, ((configurableLoad cenvTwo "Cfg2" cfresh [] [] 5).2.2.1).get? 0 = some ncv ∧
      ncv.revision = 1) := by
  have h1 := revision_numbering cenvTwo "Cfg2" ctwo heap0 ["b"] 5 _ _ _ rfl
  have h2 := revision_numbering cenvTwo "Cfg2" cfresh [] [] 5 _ _ _ rfl
  obtain ⟨ncv, hget, hrev, _⟩ := h1.2.2.2.2 0 cv0 rfl rfl
  obtain ⟨cv0', hget0, hsv, _⟩ := h1.2.2.1 0 cv0 rfl
  obtain ⟨ncv2, hget2, hrev2⟩ := h2.2.2.2.1 rfl
  exact ⟨⟨ncv, hget, hrev⟩, ⟨cv0', hget0, hsv⟩, h1.1, ⟨ncv2, hget2, hrev2⟩⟩

/-! Characterisation of the languages of `nameRE` and `refRE` at the token
level, and its transfer to character strings. -/

/-- A token allowed by the class `[a-zA-Z0-9_-]`. -/
def isNameTok : Tok → Bool
  | .letter => true
  | .digit => true
  | .score => true
  | .dash => true
  | _ => false

/-- A token allowed by the class `[a-zA-Z0-9]`. -/
def isAlnumTok : Tok → Bool
  | .letter => true
  | .digit => true
  | _ => false

def isLetterTok : Tok → Bool
  | .letter => true
  | _ => false

/-- The token-level language of `([a-zA-Z0-9_-]*[a-zA-Z0-9])*`: empty, or
every token a name token with the last one alphanumeric. -/
def tokTailOk (u : List Tok) : Bool :=
  u.all isNameTok &&
    (u.isEmpty ||
      (match u.getLast? with
       | some t => isAlnumTok t
       | none => false))

/-- The token-level language of `namePattern`. -/
def tokNameOk : List Tok → Bool
  | [] => false
  | t :: u => isLetterTok t && tokTailOk u

theorem alnumRE_rmatch (x : List Tok) :
    alnumRE.rmatch x = true ↔ ∃ t, isAlnumTok t = true ∧ x = [t] := by
  unfold alnumRE
  rw [RegularExpression.add_rmatch_iff, RegularExpression.char_rmatch_iff,
    RegularExpression.char_rmatch_iff]
  constructor
  · rintro (rfl | rfl)
    · exact ⟨.letter, rfl, rfl⟩
    · exact ⟨.digit, rfl, rfl⟩
  · rintro ⟨t, ht, rfl⟩
    cases t <;> simp_all [isAlnumTok]

theorem nameCharRE_rmatch (x : List Tok) :
    nameCharRE.rmatch x = true ↔ ∃ t, isNameTok t = true ∧ x = [t] := by
  unfold nameCharRE
  rw [RegularExpression.add_rmatch_iff, RegularExpression.add_rmatch_iff,
    RegularExpression.add_rmatch_iff, RegularExpression.char_rmatch_iff,
    RegularExpression.char_rmatch_iff, RegularExpression.char_rmatch_iff,
    RegularExpression.char_rmatch_iff]
  constructor
  · rintro (((rfl | rfl) | rfl) | rfl)
    · exact ⟨.letter, rfl, rfl⟩
    · exact ⟨.digit, rfl, rfl⟩
    · exact ⟨.score, rfl, rfl⟩
    · exact ⟨.dash, rfl, rfl⟩
  · rintro ⟨t, ht, rfl⟩
    cases t <;> simp_all [isNameTok]

theorem flatten_map_singleton (u : List α) : (u.map (fun t => [t])).flatten = u := by
  induction u with
  | nil => rfl
  | cons t ts ih => simp [ih]

theorem star_nameCharRE_rmatch (u : List Tok) :
    nameCharRE.star.rmatch u = true ↔ u.all isNameTok = true := by
  rw [RegularExpression.star_rmatch_iff]
  constructor
  · rintro ⟨S, rfl, hS⟩
    rw [List.all_eq_true]
    intro t ht
    obtain ⟨b, hb, htb⟩ := List.mem_flatten.mp ht
    obtain ⟨t2, ht2, rfl⟩ := (nameCharRE_rmatch b).mp (hS b hb).2
    obtain rfl := List.mem_singleton.mp htb
    exact ht2
  · intro hall
    refine ⟨u.map (fun t => [t]), (flatten_map_singleton u).symm, ?_⟩
    intro b hb
    obtain ⟨t, ht, rfl⟩ := List.mem_map.mp hb
    exact ⟨by simp, (nameCharRE_rmatch [t]).mpr ⟨t, List.all_eq_true.mp hall t ht, rfl⟩⟩

/-- One block `[a-zA-Z0-9_-]*[a-zA-Z0-9]`. -/
theorem nameBlock_rmatch (b : List Tok) :
    (nameCharRE.star * alnumRE).rmatch b = true ↔
      ∃ pre t, b = pre ++ [t] ∧ pre.all isNameTok = true ∧ isAlnumTok t = true := by
  rw [RegularExpression.mul_rmatch_iff]
  constructor
  · rintro ⟨pre, post, rfl, hpre, hpost⟩
    obtain ⟨t, ht, rfl⟩ := (alnumRE_rmatch post).mp hpost
    exact ⟨pre, t, rfl, (star_nameCharRE_rmatch pre).mp hpre, ht⟩
  · rintro ⟨pre, t, rfl, hpre, ht⟩
    exact ⟨pre, [t], rfl, (star_nameCharRE_rmatch pre).mpr hpre,
      (alnumRE_rmatch [t]).mpr ⟨t, ht, rfl⟩⟩

theorem alnum_isNameTok {t : Tok} (h : isAlnumTok t = true) : isNameTok t = true := by
  cases t <;> simp_all [isAlnumTok, isNameTok]

theorem tokTailOk_block_append (pre : List Tok) (t : Tok) (u : List Tok)
    (hpre : pre.all isNameTok = true) (ht : isAlnumTok t = true) (hu : tokTailOk u = true) :
    tokTailOk (pre ++ [t] ++ u) = true := by
  unfold tokTailOk at hu ⊢
  simp only [Bool.and_eq_true, Bool.or_eq_true] at hu ⊢
  refine ⟨?_, Or.inr ?_⟩
  · simp only [List.all_append, List.all_cons, List.all_nil, Bool.and_eq_true]
    exact ⟨⟨by simpa using hpre, by simp [alnum_isNameTok ht]⟩, hu.1⟩
  · cases hue : u with
    | nil =>
      subst hue
      rw [List.append_nil, List.getLast?_concat]
      exact ht
    | cons x xs =>
      subst hue
      have hg : (pre ++ [t] ++ x :: xs).getLast? = (x :: xs).getLast? := by
        rw [List.getLast?_append]
        cases hgx : (x :: xs).getLast? with
        | none => simp at hgx
        | some y => simp [Option.or]
      rw [hg]
      rcases hu.2 with hemp | hm
      · simp at hemp
      · exact hm

theorem tailRE_rmatch (u : List Tok) :
    (nameCharRE.star * alnumRE).star.rmatch u = true ↔ tokTailOk u = true := by
  rw [RegularExpression.star_rmatch_iff]
  constructor
  · rintro ⟨S, rfl, hS⟩
    induction S with
    | nil => rfl
    | cons b S2 ih =>
      obtain ⟨pre, t, hb, hpre, ht⟩ := (nameBlock_rmatch b).mp (hS b (by simp)).2
      have hrest := ih (fun x hx => hS x (List.mem_cons_of_mem b hx))
      rw [List.flatten_cons, hb, List.append_assoc]
      rw [← List.append_assoc]
      exact tokTailOk_block_append pre t S2.flatten hpre ht hrest
  · intro hok
    cases hu2 : u with
    | nil => exact ⟨[], rfl, by simp⟩
    | cons x xs =>
      subst hu2
      unfold tokTailOk at hok
      simp only [Bool.and_eq_true, Bool.or_eq_true] at hok
      have hlast : ∃ t, (x :: xs).getLast? = some t ∧ isAlnumTok t = true := by
        rcases hok.2 with hemp | hm
        · simp [List.isEmpty] at hemp
        · cases hg : (x :: xs).getLast? with
          | none => simp at hg
          | some t =>
            rw [hg] at hm
            exact ⟨t, rfl, hm⟩
      obtain ⟨t, hg, ht⟩ := hlast
      refine ⟨[x :: xs], by simp, ?_⟩
      intro b hb
      rw [List.mem_singleton.mp hb]
      refine ⟨by simp, (nameBlock_rmatch _).mpr ⟨(x :: xs).dropLast, t, ?_, ?_, ht⟩⟩
      · rw [List.dropLast_append_getLast? t hg]
      · rw [List.all_eq_true]
        intro y hy
        exact List.all_eq_true.mp hok.1 y (List.dropLast_subset _ hy)

theorem nameRE_rmatch (x : List Tok) :
    nameRE.rmatch x = true ↔ tokNameOk x = true := by
  unfold nameRE letterRE
  rw [RegularExpression.mul_rmatch_iff]
  constructor
  · rintro ⟨t1, u, rfl, h1, h2⟩
    rw [RegularExpression.char_rmatch_iff] at h1
    subst h1
    have := (tailRE_rmatch u).mp h2
    simp [tokNameOk, isLetterTok, this]
  · intro hok
    cases hx : x with
    | nil =>
      subst hx
      exact absurd hok (by simp [tokNameOk])
    | cons t u =>
      subst hx
      unfold tokNameOk at hok
      simp only [Bool.and_eq_true] at hok
      have ht : t = .letter := by
        cases t <;> simp_all [isLetterTok]
      subst ht
      exact ⟨[.letter], u, rfl, (RegularExpression.char_rmatch_iff _ _).mpr rfl,
        (tailRE_rmatch u).mpr hok.2⟩

theorem dotBlock_rmatch (b : List Tok) :
    (RegularExpression.char Tok.dot * nameRE).rmatch b = true ↔
      ∃ n, b = Tok.dot :: n ∧ tokNameOk n = true := by
  rw [RegularExpression.mul_rmatch_iff]
  constructor
  · rintro ⟨d, n, rfl, hd, hn⟩
    rw [RegularExpression.char_rmatch_iff] at hd
    subst hd
    exact ⟨n, rfl, (nameRE_rmatch n).mp hn⟩
  · rintro ⟨n, rfl, hn⟩
    exact ⟨[Tok.dot], n, rfl, (RegularExpression.char_rmatch_iff _ _).mpr rfl,
      (nameRE_rmatch n).mpr hn⟩

theorem sepJoin_cons (sep : α) (n m : List α) (rest : List (List α)) :
    sepJoin sep (n :: m :: rest) = n ++ sep :: sepJoin sep (m :: rest) := rfl

theorem sepJoin_eq_append_flatten (sep : α) (n0 : List α) (ns : List (List α)) :
    sepJoin sep (n0 :: ns) = n0 ++ (ns.map (fun n => sep :: n)).flatten := by
  induction ns generalizing n0 with
  | nil => simp [sepJoin]
  | cons m rest ih =>
    rw [sepJoin_cons, ih m]
    simp

theorem blocks_to_names (S : List (List Tok))
    (hS : ∀ b ∈ S, ∃ n, b = Tok.dot :: n ∧ tokNameOk n = true) :
    ∃ ns : List (List Tok), (∀ n ∈ ns, tokNameOk n = true) ∧
      S.flatten = (ns.map (fun n => Tok.dot :: n)).flatten := by
  induction S with
  | nil => exact ⟨[], by simp, by simp⟩
  | cons b S2 ih =>
    obtain ⟨n, hb, hn⟩ := hS b (by simp)
    obtain ⟨ns, h1, h2⟩ := ih (fun x hx => hS x (List.mem_cons_of_mem b hx))
    refine ⟨n :: ns, ?_, by simp [hb, h2]⟩
    intro m hm
    rcases List.mem_cons.mp hm with rfl | hh
    · exact hn
    · exact h1 m hh

theorem refRE_rmatch (x : List Tok) :
    refRE.rmatch x = true ↔
      ∃ tnames : List (List Tok), tnames ≠ [] ∧ (∀ n ∈ tnames, tokNameOk n = true) ∧
        x = sepJoin Tok.dot tnames := by
  unfold refRE
  rw [RegularExpression.mul_rmatch_iff]
  constructor
  · rintro ⟨n0, rest, rfl, hn0, hrest⟩
    rw [RegularExpression.star_rmatch_iff] at hrest
    obtain ⟨S, rfl, hS⟩ := hrest
    have hblocks : ∀ b ∈ S, ∃ n, b = Tok.dot :: n ∧ tokNameOk n = true :=
      fun b hb => (dotBlock_rmatch b).mp (hS b hb).2
    obtain ⟨ns, hns, hflat⟩ := blocks_to_names S hblocks
    refine ⟨n0 :: ns, by simp, ?_, ?_⟩
    · intro n hn
      rcases List.mem_cons.mp hn with rfl | h2
      · exact (nameRE_rmatch n).mp hn0
      · exact hns n h2
    · rw [hflat, sepJoin_eq_append_flatten]
  · rintro ⟨tnames, hne, hok, rfl⟩
    cases tnames with
    | nil => exact absurd rfl hne
    | cons n0 ns =>
      rw [sepJoin_eq_append_flatten]
      refine ⟨n0, (ns.map (fun n => Tok.dot :: n)).flatten, rfl,
        (nameRE_rmatch n0).mpr (hok n0 (by simp)), ?_⟩
      rw [RegularExpression.star_rmatch_iff]
      refine ⟨ns.map (fun n => Tok.dot :: n), rfl, ?_⟩
      intro b hb
      obtain ⟨n, hn, rfl⟩ := List.mem_map.mp hb
      exact ⟨by simp, (dotBlock_rmatch _).mpr ⟨n, rfl, hok n (by simp [hn])⟩⟩

/-! Transfer from tokens to characters. -/

theorem isLetterTok_tok (c : Char) : isLetterTok (tok c) = c.isAlpha := by
  unfold tok
  split_ifs with h1 h2 h3 h4 h5 <;> simp_all [isLetterTok]

theorem isNameTok_tok (c : Char) : isNameTok (tok c) = isNameChar c := by
  unfold tok isNameChar
  split_ifs with h1 h2 h3 h4 h5 <;> simp_all [isNameTok]

theorem isAlnumTok_tok (c : Char) : isAlnumTok (tok c) = c.isAlphanum := by
  unfold tok Char.isAlphanum
  split_ifs with h1 h2 h3 h4 h5 <;> simp_all [isAlnumTok]

theorem tok_eq_dot {c : Char} : tok c = Tok.dot ↔ c = '.' := by
  constructor
  · intro h
    unfold tok at h
    split_ifs at h with h1 h2 h3 h4 h5
    · exact h5
  · rintro rfl
    rfl

theorem all_map_tok (p : Tok → Bool) (q : Char → Bool)
    (h : ∀ c, p (tok c) = q c) (cs : List Char) : (cs.map tok).all p = cs.all q := by
  induction cs with
  | nil => rfl
  | cons c cs2 ih => simp [h, ih]

theorem tokTailOk_map (cs : List Char) :
    tokTailOk (cs.map tok) =
      (cs.all isNameChar &&
        (cs.isEmpty ||
          (match cs.getLast? with
           | some c => c.isAlphanum
           | none => false))) := by
  unfold tokTailOk
  rw [all_map_tok isNameTok isNameChar isNameTok_tok]
  congr 1
  cases hcs : cs with
  | nil => rfl
  | cons c cs2 =>
    simp only [List.isEmpty_cons, Bool.false_or]
    rw [List.getLast?_map]
    cases hg : (c :: cs2).getLast? with
    | none => simp at hg
    | some y => simp [isAlnumTok_tok]

theorem tokNameOk_map (cs : List Char) : tokNameOk (cs.map tok) = codeName cs := by
  cases cs with
  | nil => rfl
  | cons c rest =>
    show (isLetterTok (tok c) && tokTailOk (rest.map tok)) = codeName (c :: rest)
    rw [isLetterTok_tok, tokTailOk_map]
    unfold codeName specName
    cases rest with
    | nil => cases ha : c.isAlpha <;> simp [ha, Char.isAlphanum]
    | cons x xs =>
      rw [List.getLast?_cons_cons]
      simp [Bool.and_assoc]

theorem map_tok_sepJoin (names : List (List Char)) :
    (sepJoin '.' names).map tok = sepJoin Tok.dot (names.map (List.map tok)) := by
  induction names with
  | nil => rfl
  | cons n rest ih =>
    cases rest with
    | nil => rfl
    | cons m r2 =>
      rw [sepJoin_cons, List.map_cons, List.map_cons, sepJoin_cons, ← List.map_cons, ← ih]
      simp [tok_eq_dot.mpr rfl]

theorem map_eq_append_split {f : α → β} : ∀ (y1 y2 : List β) (l : List α),
    l.map f = y1 ++ y2 → ∃ l1 l2, l = l1 ++ l2 ∧ l1.map f = y1 ∧ l2.map f = y2 := by
  intro y1
  induction y1 with
  | nil =>
    intro y2 l h
    exact ⟨[], l, rfl, rfl, h⟩
  | cons b y1tail ih =>
    intro y2 l h
    cases l with
    | nil => simp at h
    | cons a ltail =>
      simp only [List.map_cons, List.cons_append, List.cons.injEq] at h
      obtain ⟨l1, l2, rfl, hm1, hm2⟩ := ih y2 ltail h.2
      exact ⟨a :: l1, l2, rfl, by simp [h.1, hm1], hm2⟩

theorem sepJoin_map_decomp : ∀ (tnames : List (List Tok)) (cs : List Char),
    cs.map tok = sepJoin Tok.dot tnames → tnames ≠ [] →
    ∃ cnames : List (List Char), cnames ≠ [] ∧ cs = sepJoin '.' cnames ∧
      tnames = cnames.map (List.map tok) := by
  intro tnames
  induction tnames with
  | nil =>
    intro cs h hne
    exact absurd rfl hne
  | cons n rest ih =>
    intro cs h _
    cases rest with
    | nil =>
      refine ⟨[cs], by simp, rfl, ?_⟩
      show [n] = [cs.map tok]
      rw [show sepJoin Tok.dot [n] = n from rfl] at h
      rw [h]
    | cons m r2 =>
      rw [sepJoin_cons] at h
      obtain ⟨l1, l2, rfl, hm1, hm2⟩ :=
        map_eq_append_split n (Tok.dot :: sepJoin Tok.dot (m :: r2)) cs h
      cases l2 with
      | nil => simp at hm2
      | cons d l2tail =>
        simp only [List.map_cons, List.cons.injEq] at hm2
        have hdc : d = '.' := tok_eq_dot.mp hm2.1
        obtain ⟨cnames, hne2, hjoin, hmap⟩ := ih l2tail hm2.2 (by simp)
        subst hdc
        refine ⟨l1 :: cnames, by simp, ?_, ?_⟩
        · cases cnames with
          | nil => exact absurd rfl hne2
          | cons c0 cr =>
            rw [sepJoin_cons, ← hjoin]
        · simp only [List.map_cons, List.cons.injEq]
          exact ⟨hm1.symm, hmap⟩

/-- C8 counterexample: the claim's grammar (names of letters, digits,
underscore, hyphen, starting with a letter) accepts `"a-"`, but the code's
`validReference` rejects it — the pattern additionally requires every name
to end in a letter or digit. -/
theorem reference_grammar_counterexample :
    validReference "a-" = false ∧ DotSeparated specName "a-" := by
  refine ⟨by decide, ⟨[['a', '-']], by simp, ?_, rfl⟩⟩
  intro n hn
  rw [List.mem_singleton.mp hn]
  decide

/-- C8 amended: a string is accepted by `validReference` iff it is a
dot-separated sequence of names where each name consists only of letters,
digits, underscore and hyphen, begins with a letter, and ends with a letter
or a digit; and a string the grammar rejects makes `flagConfigure`
(registration) fail immediately. -/
theorem reference_grammar (s : String) :
    (validReference s = true ↔ DotSeparated codeName s) ∧
    (validReference s = false → ∀ (tmpl : Option GoVal) (st : FlagRegState),
      ∃ e, flagConfigure s tmpl st = .error e) := by
  constructor
  · show refRE.rmatch (s.data.map tok) = true ↔ _
    rw [refRE_rmatch]
    constructor
    · rintro ⟨tnames, hne, hok, hjoin⟩
      obtain ⟨cnames, hcne, hcjoin, rfl⟩ := sepJoin_map_decomp tnames s.data hjoin hne
      refine ⟨cnames, hcne, ?_, hcjoin⟩
      intro n hn
      have h2 := hok (n.map tok) (List.mem_map_of_mem _ hn)
      rwa [tokNameOk_map] at h2
    · rintro ⟨cnames, hcne, hcok, hcjoin⟩
      refine ⟨cnames.map (List.map tok), by simpa using hcne, ?_, ?_⟩
      · intro n hn
        obtain ⟨cn, hcn, rfl⟩ := List.mem_map.mp hn
        rw [tokNameOk_map]
        exact hcok cn hcn
      · rw [hcjoin, map_tok_sepJoin]
  · intro hf tmpl st
    cases hl : st.loaded
    · exact ⟨"invalid config reference(" ++ s ++ "), expecting dot-notation reference",
        by simp [flagConfigure, hl, hf]⟩
    · exact ⟨"config.MustConfigure(" ++ s ++ ") called after config.Load()",
        by simp [flagConfigure, hl]⟩

/-- Witness for C8 amended: `svc.http-x7` is accepted and satisfies the
grammar; `9bad` is rejected by the grammar and its registration fails. -/
theorem reference_grammar_witness :
    DotSeparated codeName "svc.http-x7" ∧
    (∃ e, flagConfigure "9bad" none ⟨false, []⟩ = .error e) :=
  ⟨(reference_grammar "svc.http-x7").1.mp (by decide),
   (reference_grammar "9bad").2 (by decide) none ⟨false, []⟩⟩

end GoConfig
